import Mathlib

/-!
Verification development for the ndn-cxx Data packet codec excerpt.

The development shallowly embeds:
* the MetaInfo extension codec (mobility flag, hop limit, timestamp) found
  inline in src/ndn-cxx/data.hpp;
* the hexadecimal character helpers found inline in
  src/ndn-cxx/util/string-helper.hpp;
* the Data packet record together with its wire codec, cache discipline,
  signed-range extractor and full-name resolver.  The bodies of those Data
  member functions live in data.cpp, which is not part of the excerpt, so
  they are modelled from the specification (each such definition carries a
  doc comment starting with "Modelled from the spec:").

Machine integers are modelled as Nat / Int with explicit reductions
(mod 2^8, mod 2^64, signed 64-bit reinterpretation) at the points where the
C++ code performs an integral conversion.  A byte buffer is a List Nat.
-/

/- TLV type constants.  `Data`, `Name`, `MetaInfo`, `Content`,
`SignatureInfo`, `SignatureValue`, `HopLimit` and
`ImplicitSha256DigestComponent` carry their standard NDN packet-format
numbers.  Modelled from the spec: the header `ndn-cxx/encoding/tlv.hpp`
defining `tlv::MobilityFlag` and `tlv::TimeStamp` is not part of the
excerpt; they are modelled as two further distinct type tags. -/
namespace tlv

def Data : Nat := 6

def Name : Nat := 7

def MetaInfo : Nat := 20

def Content : Nat := 21

def SignatureInfo : Nat := 22

def SignatureValue : Nat := 23

def HopLimit : Nat := 34

def ContentType : Nat := 24

def FreshnessPeriod : Nat := 25

def FinalBlockId : Nat := 26

def MobilityFlag : Nat := 200

def TimeStamp : Nat := 202

def ImplicitSha256DigestComponent : Nat := 1

end tlv

/-- Big-endian fixed-width byte representation of a natural number:
`toBytesBE k n` yields exactly `k` bytes holding `n % 256^k`. -/
def toBytesBE : Nat → Nat → List Nat
  | 0, _ => []
  | k + 1, n => toBytesBE k (n / 256) ++ [n % 256]

/-- Big-endian byte-list to natural number. -/
def fromBytesBE (bs : List Nat) : Nat :=
  bs.foldl (fun acc b => acc * 256 + b) 0

/-- TLV variable-size number encoding (used for TLV-TYPE and TLV-LENGTH):
one byte below 253, otherwise a 253/254/255 marker followed by a 2-, 4- or
8-byte big-endian value. -/
def encodeVarNum (n : Nat) : List Nat :=
  if n < 253 then [n]
  else if n < 2 ^ 16 then 253 :: toBytesBE 2 n
  else if n < 2 ^ 32 then 254 :: toBytesBE 4 n
  else 255 :: toBytesBE 8 n

/-- TLV variable-size number decoding; returns the number and the unread
remainder of the input. -/
def readVarNum : List Nat → Option (Nat × List Nat)
  | [] => none
  | f :: rest =>
    if f < 253 then some (f, rest)
    else if f = 253 then
      match rest with
      | a :: b :: r => some (a * 256 + b, r)
      | _ => none
    else if f = 254 then
      match rest with
      | a :: b :: c :: d :: r =>
        some (a * 2 ^ 24 + b * 2 ^ 16 + c * 2 ^ 8 + d, r)
      | _ => none
    else
      match rest with
      | a :: b :: c :: d :: e :: f2 :: g :: h :: r =>
        some (a * 2 ^ 56 + b * 2 ^ 48 + c * 2 ^ 40 + d * 2 ^ 32 +
              e * 2 ^ 24 + f2 * 2 ^ 16 + g * 2 ^ 8 + h, r)
      | _ => none

/-- A complete TLV element: TLV-TYPE, TLV-LENGTH, TLV-VALUE. -/
def tlvBlock (t : Nat) (v : List Nat) : List Nat :=
  encodeVarNum t ++ encodeVarNum v.length ++ v

/-- Read one TLV element off the front of a byte buffer, returning its
type, its value bytes, and the unread remainder. -/
def readTLV (bs : List Nat) : Option (Nat × List Nat × List Nat) :=
  (readVarNum bs).bind fun p =>
    (readVarNum p.2).bind fun q =>
      if q.1 ≤ q.2.length then some (p.1, q.2.take q.1, q.2.drop q.1)
      else none

/-- A parsed TLV element: type tag plus TLV-VALUE bytes.  This models the
`Block` view type consumed by the codec. -/
structure Block where
  type : Nat
  value : List Nat
deriving DecidableEq, Repr

/-- Fuel-indexed repeated TLV reader (the fuel is an upper bound on the
number of elements, supplied as the byte count by `parseBlocks`). -/
def parseBlocksAux : Nat → List Nat → Option (List Block)
  | _, [] => some []
  | 0, _ :: _ => none
  | fuel + 1, b :: bs =>
    (readTLV (b :: bs)).bind fun p =>
      (parseBlocksAux fuel p.2.2).map (fun tl => Block.mk p.1 p.2.1 :: tl)

/-- Parse a byte buffer into the list of consecutive TLV elements that
exactly covers it. -/
def parseBlocks (bs : List Nat) : Option (List Block) :=
  parseBlocksAux bs.length bs

/-- NDN nonnegative-integer encoding: the value in the smallest of 1, 2, 4
or 8 big-endian bytes. -/
def encodeNNI (v : Nat) : List Nat :=
  if v < 2 ^ 8 then toBytesBE 1 v
  else if v < 2 ^ 16 then toBytesBE 2 v
  else if v < 2 ^ 32 then toBytesBE 4 v
  else toBytesBE 8 v

/-- `readNonNegativeInteger` over the TLV-VALUE of a block: accepts widths
1, 2, 4, 8 and is an error otherwise (the C++ helper throws). -/
def readNNI (bs : List Nat) : Option Nat :=
  if bs.length = 1 ∨ bs.length = 2 ∨ bs.length = 4 ∨ bs.length = 8 then
    some (fromBytesBE bs)
  else none

/-- C++ `int64_t → uint64_t` conversion (used when a
`time::milliseconds::rep` count is passed to a `uint64_t` parameter). -/
def uint64OfInt (i : Int) : Nat :=
  (i % 2 ^ 64).toNat

/-- C++ `uint64_t → int64_t` conversion (two's complement
reinterpretation, used when a decoded nonnegative integer is stored into a
`time::milliseconds`). -/
def toSigned64 (v : Nat) : Int :=
  if v < 2 ^ 63 then (v : Int) else (v : Int) - 2 ^ 64

/-- The MetaInfo record.  The first three fields are the extension fields
defined inline in src/ndn-cxx/data.hpp: a mobility flag (default false),
an 8-bit hop limit (0 = unset) and a millisecond timestamp (a C++
`time::milliseconds`, i.e. a signed 64-bit count; its default is modelled
from the spec as a zero value, "defaults to a sensible zero/now value").
The last three are modelled from the spec (§3): the core MetaInfo fields
held by the `MetaInfo` of meta-info.hpp, which is not part of the excerpt
— a `uint32_t` content-type code (default 0), a `time::milliseconds`
freshness period (default 0) and an optional final-block name component
(modelled as the TLV-VALUE bytes of the FinalBlockId element). -/
structure MetaInfo where
  mobilityFlag : Bool := false
  hopLimit : Nat := 0
  timeStamp : Int := 0
  type : Nat := 0
  freshnessPeriod : Int := 0
  finalBlock : Option (List Nat) := none
deriving DecidableEq, Repr

/-- `MetaInfo::hasHopLimit`: the hop limit is set iff it is positive. -/
def MetaInfo.hasHopLimit (m : MetaInfo) : Bool :=
  decide (0 < m.hopLimit)

/-- The encoder state: an output byte buffer.  `EncodingImpl` is an
external collaborator; it is modelled as a growable buffer whose append
operation returns the number of bytes appended. -/
structure Encoder where
  buf : List Nat
deriving Repr

/-- `encoder.appendNonNegativeIntegerBlock(type, value)`: append one TLV
element whose value is the nonnegative-integer encoding of `v`; return the
size of the appended element together with the new encoder state. -/
def Encoder.appendNonNegativeIntegerBlock (e : Encoder) (t : Nat) (v : Nat) :
    Nat × Encoder :=
  let bs := tlvBlock t (encodeNNI v)
  (bs.length, Encoder.mk (e.buf ++ bs))

/-- `MetaInfo::wireEncode` from src/ndn-cxx/data.hpp: append the
MobilityFlag element (only if the flag is true), then the HopLimit element
(only if `hasHopLimit`), then the TimeStamp element (always); accumulate
and return the total appended length. -/
def MetaInfo.wireEncode (m : MetaInfo) (encoder : Encoder) : Nat × Encoder :=
  let totalLength : Nat := 0
  let (totalLength, encoder) :=
    if m.mobilityFlag then
      let (n, e) := encoder.appendNonNegativeIntegerBlock tlv.MobilityFlag 1
      (totalLength + n, e)
    else (totalLength, encoder)
  let (totalLength, encoder) :=
    if m.hasHopLimit then
      let (n, e) := encoder.appendNonNegativeIntegerBlock tlv.HopLimit m.hopLimit
      (totalLength + n, e)
    else (totalLength, encoder)
  let (totalLength, encoder) :=
    let (n, e) :=
      encoder.appendNonNegativeIntegerBlock tlv.TimeStamp (uint64OfInt m.timeStamp)
    (totalLength + n, e)
  (totalLength, encoder)

/-- The bytes emitted by `MetaInfo::wireEncode` into an empty encoder. -/
def MetaInfo.encodeBytes (m : MetaInfo) : List Nat :=
  (m.wireEncode (Encoder.mk [])).2.buf

/-- `MetaInfo::wireDecode` from src/ndn-cxx/data.hpp: dispatch on the type
of the single supplied block.  A MobilityFlag block sets the flag to true
without reading its value; a HopLimit block stores the block's
nonnegative-integer value into the `uint8_t` field (truncating mod 2^8); a
TimeStamp block stores it as a signed 64-bit millisecond count.  A failed
nonnegative-integer read is an error (the C++ helper throws). -/
def MetaInfo.wireDecode (m : MetaInfo) (block : Block) : Option MetaInfo :=
  let m := if block.type = tlv.MobilityFlag then
    { m with mobilityFlag := true } else m
  match (if block.type = tlv.HopLimit then
           (readNNI block.value).map (fun v => { m with hopLimit := v % 2 ^ 8 })
         else some m) with
  | none => none
  | some m =>
    if block.type = tlv.TimeStamp then
      (readNNI block.value).map (fun v => { m with timeStamp := toSigned64 v })
    else some m

/-- `toHexChar` from src/ndn-cxx/util/string-helper.hpp, over ASCII codes:
index into the hex-digit alphabet with the low nibble of `n`. -/
def toHexChar (n : Nat) (wantUpperCase : Bool := true) : Nat :=
  (((if wantUpperCase then "0123456789ABCDEF" else "0123456789abcdef").toList).getD
    (n &&& 0xf) '0').toNat

/-- `fromHexChar` from src/ndn-cxx/util/string-helper.hpp, over ASCII
codes: the value of a hex digit, or -1 for any other character. -/
def fromHexChar (c : Nat) : Int :=
  if 48 ≤ c ∧ c ≤ 57 then (c : Int) - 48
  else if 65 ≤ c ∧ c ≤ 70 then (c : Int) - 65 + 10
  else if 97 ≤ c ∧ c ≤ 102 then (c : Int) - 97 + 10
  else -1

/-- Error kinds surfaced by the packet operations (spec §7): encoding
errors, decoding errors, and the no-wire-encoding error. -/
inductive Err where
  | encodingError
  | decodingError
  | noWireError
deriving DecidableEq, Repr

/-- The Data packet record.  Modelled from the spec: the bodies of the
`Data` member functions live in data.cpp, outside the excerpt.  Fields per
§3: name (its TLV-VALUE bytes; the hierarchical name codec is an external
collaborator), metaInfo, optional content (TLV-VALUE bytes of the Content
element), signatureInfo (TLV-VALUE bytes), optional signatureValue
(TLV-VALUE bytes; absent means unsigned), plus the two derived caches:
wire bytes and full name. -/
structure Data where
  name : List Nat
  metaInfo : MetaInfo
  content : Option (List Nat)
  signatureInfo : List Nat
  signatureValue : Option (List Nat)
  wire : Option (List Nat)
  fullName : Option (List Nat)
deriving DecidableEq, Repr

/-- Modelled from the spec (§6 table): the core sub-elements of the
MetaInfo container — ContentType, FreshnessPeriod and FinalBlockId, in
that order, each omitted at its default value (content-type 0, zero
freshness period, no final block; cf. the §8 concrete scenario's
content-type 0).  The extension sub-elements that follow them are
produced by the in-source `MetaInfo::wireEncode`. -/
def coreParts (m : MetaInfo) : List Nat :=
  (if m.type ≠ 0 then tlvBlock tlv.ContentType (encodeNNI m.type) else []) ++
    ((if m.freshnessPeriod ≠ 0 then
        tlvBlock tlv.FreshnessPeriod (encodeNNI (uint64OfInt m.freshnessPeriod))
      else []) ++
      (match m.finalBlock with
       | some fb => tlvBlock tlv.FinalBlockId fb
       | none => []))

/-- The TLV-VALUE of the MetaInfo element: the core sub-elements followed
by the extension sub-elements emitted by the in-source
`MetaInfo::wireEncode` (§6 table). -/
def metaElemValue (m : MetaInfo) : List Nat :=
  coreParts m ++ m.encodeBytes

/-- Modelled from the spec (§4.2): the unsigned portion — the
concatenation of the encoded Name, MetaInfo, Content (if present) and
SignatureInfo elements, without SignatureValue and without the outer
Type-Length.  The MetaInfo element's value holds the core sub-elements
followed by the extension sub-elements (§6 table). -/
def unsignedBytes (d : Data) : List Nat :=
  tlvBlock tlv.Name d.name ++
    (tlvBlock tlv.MetaInfo (metaElemValue d.metaInfo) ++
      ((match d.content with
        | some c => tlvBlock tlv.Content c
        | none => []) ++
        tlvBlock tlv.SignatureInfo d.signatureInfo))

/-- Modelled from the spec (§4.2): the complete signed encoding — the
unsigned portion followed by the SignatureValue element, wrapped in the
outer Data Type-Length. -/
def fullBytes (d : Data) (sv : List Nat) : List Nat :=
  tlvBlock tlv.Data (unsignedBytes d ++ tlvBlock tlv.SignatureValue sv)

/-- Modelled from the spec (§4.2): `Data::wireEncode(encoder,
wantUnsignedPortionOnly)`.  With `wantUnsignedPortionOnly = true` it emits
only the unsigned portion; otherwise it requires `signatureValue` to be
present, failing with an encoding error if absent, and emits the complete
outer element. -/
def Data.wireEncodeImpl (d : Data) (wantUnsignedPortionOnly : Bool) :
    Except Err (List Nat) :=
  if wantUnsignedPortionOnly then .ok (unsignedBytes d)
  else
    match d.signatureValue with
    | none => .error .encodingError
    | some sv => .ok (fullBytes d sv)

/-- Modelled from the spec (§4.2): `Data::wireEncode()` — if a valid wire
cache already exists, return it without recomputation; otherwise perform
the full signed encode (requiring a signature) and cache the produced
bytes on the record. -/
def Data.wireEncodeFull (d : Data) : Except Err (List Nat × Data) :=
  match d.wire with
  | some w => .ok (w, d)
  | none =>
    match d.wireEncodeImpl false with
    | .error e => .error e
    | .ok bytes => .ok (bytes, { d with wire := some bytes })

/-- Modelled from the spec (§4.3, §6): decode of one sub-element of the
MetaInfo container.  The core sub-element types (ContentType,
FreshnessPeriod, FinalBlockId) are handled by the data.cpp-side decode —
the content type is stored into the `uint32_t` field, the freshness
period into the signed 64-bit millisecond count — while every other type
is delegated to the in-source `MetaInfo::wireDecode`. -/
def metaInfoElemDecode (m : MetaInfo) (b : Block) : Option MetaInfo :=
  if b.type = tlv.ContentType then
    (readNNI b.value).map fun v => { m with type := v % 2 ^ 32 }
  else if b.type = tlv.FreshnessPeriod then
    (readNNI b.value).map fun v => { m with freshnessPeriod := toSigned64 v }
  else if b.type = tlv.FinalBlockId then
    some { m with finalBlock := some b.value }
  else m.wireDecode b

/-- Decode of the TLV-VALUE of a MetaInfo container: parse it into
sub-elements and feed each one through the per-element decode, starting
from a default-constructed MetaInfo.  Modelled from the spec (§4.3,
§4.6): the outer iterator over the container's children is part of the
missing data.cpp. -/
def decodeMetaValue (bs : List Nat) : Option MetaInfo :=
  (parseBlocks bs).bind fun blocks => blocks.foldlM metaInfoElemDecode {}

/-- Final step of `Data::wireDecode`: after Name, MetaInfo and optional
Content and SignatureInfo have been read, the remainder must be empty (an
unsigned packet) or exactly one SignatureValue element.  On success all
fields are replaced and the wire cache is set to exactly the input bytes;
the full-name cache is left empty.  Modelled from the spec (§4.3). -/
def finishDecode (w nameV : List Nat) (mi : MetaInfo)
    (contentV : Option (List Nat)) (siV rem : List Nat) : Except Err Data :=
  if rem = [] then
    .ok (Data.mk nameV mi contentV siV none (some w) none)
  else
    match readTLV rem with
    | none => .error .decodingError
    | some (t5, v5, r5) =>
      if t5 = tlv.SignatureValue ∧ r5 = [] then
        .ok (Data.mk nameV mi contentV siV (some v5) (some w) none)
      else .error .decodingError

/-- Modelled from the spec (§4.3): `Data::wireDecode` — the input must be
one TLV element of the outer Data type; its value is parsed as Name,
MetaInfo, optional Content, SignatureInfo, optional SignatureValue, in
that fixed order, any other shape failing with a decoding error. -/
def dataWireDecode (w : List Nat) : Except Err Data :=
  match readTLV w with
  | none => .error .decodingError
  | some (t, v, rest) =>
    if t = tlv.Data ∧ rest = [] then
      match readTLV v with
      | none => .error .decodingError
      | some (t1, v1, r1) =>
        if t1 = tlv.Name then
          match readTLV r1 with
          | none => .error .decodingError
          | some (t2, v2, r2) =>
            if t2 = tlv.MetaInfo then
              match decodeMetaValue v2 with
              | none => .error .decodingError
              | some mi =>
                match readTLV r2 with
                | none => .error .decodingError
                | some (t3, v3, r3) =>
                  if t3 = tlv.Content then
                    match readTLV r3 with
                    | none => .error .decodingError
                    | some (t4, v4, r4) =>
                      if t4 = tlv.SignatureInfo then
                        finishDecode w v1 mi (some v3) v4 r4
                      else .error .decodingError
                  else if t3 = tlv.SignatureInfo then
                    finishDecode w v1 mi none v3 r3
                  else .error .decodingError
            else .error .decodingError
        else .error .decodingError
    else .error .decodingError

/-- `Data::hasWire`. -/
def Data.hasWire (d : Data) : Bool :=
  d.wire.isSome

/-- Modelled from the spec (§4.1): `Data::resetWire` clears the wire
encoding and the cached full name; it does not clear the SignatureValue
(per the note in data.hpp). -/
def Data.resetWire (d : Data) : Data :=
  { d with wire := none, fullName := none }

/-- `Data::setName`: replace the name and invalidate both caches. -/
def Data.setName (d : Data) (n : List Nat) : Data :=
  { d.resetWire with name := n }

/-- `Data::setMetaInfo`: replace the MetaInfo and invalidate both
caches. -/
def Data.setMetaInfo (d : Data) (mi : MetaInfo) : Data :=
  { d.resetWire with metaInfo := mi }

/-- Modelled from the spec (§4.1): `Data::setContent(Block)` — a block
whose outer type already is Content is used as-is, any other block is
nested into a Content element; both caches are invalidated. -/
def Data.setContent (d : Data) (b : Block) : Data :=
  { d.resetWire with
    content := some (if b.type = tlv.Content then b.value
                     else tlvBlock b.type b.value) }

/-- `Data::unsetContent`: clear the content to absent and invalidate both
caches. -/
def Data.unsetContent (d : Data) : Data :=
  { d.resetWire with content := none }

/-- `Data::setSignatureInfo`: replace the SignatureInfo and invalidate
both caches. -/
def Data.setSignatureInfo (d : Data) (si : List Nat) : Data :=
  { d.resetWire with signatureInfo := si }

/-- `Data::setSignatureValue`: replace the SignatureValue and invalidate
both caches. -/
def Data.setSignatureValue (d : Data) (sv : List Nat) : Data :=
  { d.resetWire with signatureValue := some sv }

/-- Modelled from the spec (§4.1): `Data::setContentType` delegates to
the MetaInfo's content-type setter (`uint32_t` conversion at the
interface) and, as a field mutator, invalidates both caches. -/
def Data.setContentType (d : Data) (t : Nat) : Data :=
  { d.resetWire with metaInfo := { d.metaInfo with type := t % 2 ^ 32 } }

/-- Modelled from the spec (§4.1): `Data::setFreshnessPeriod` delegates
to the MetaInfo's freshness-period setter and, as a field mutator,
invalidates both caches. -/
def Data.setFreshnessPeriod (d : Data) (f : Int) : Data :=
  { d.resetWire with metaInfo := { d.metaInfo with freshnessPeriod := f } }

/-- Modelled from the spec (§4.1): `Data::setFinalBlock` delegates to the
MetaInfo's final-block setter and, as a field mutator, invalidates both
caches. -/
def Data.setFinalBlock (d : Data) (fb : Option (List Nat)) : Data :=
  { d.resetWire with metaInfo := { d.metaInfo with finalBlock := fb } }

/-- Modelled from the spec (§6): the digest over a byte range is an
external collaborator; it is modelled as a concrete two-byte fold so that
the resolver stays executable. -/
def digestBytes (bs : List Nat) : List Nat :=
  [bs.length % 256, bs.foldl (fun a b => (a * 31 + b) % 256) 7]

/-- Modelled from the spec (§4.4): `Data::getFullName` — return the cached
full name if present; otherwise require a wire cache (failing with the
no-wire-encoding error), append the implicit digest component of the
cached bytes to the name, memoize and return it. -/
def Data.getFullName (d : Data) : Except Err (List Nat × Data) :=
  match d.fullName with
  | some fn => .ok (fn, d)
  | none =>
    match d.wire with
    | none => .error .noWireError
    | some w =>
      let fn := d.name ++ tlvBlock tlv.ImplicitSha256DigestComponent (digestBytes w)
      .ok (fn, { d with fullName := some fn })

/-- The bytes of a byte range `(offset, length)` viewed inside a wire
cache snapshot. -/
def rangeBytes (w : List Nat) (r : Nat × Nat) : List Nat :=
  (w.drop r.1).take r.2

/-- Modelled from the spec (§4.5): `Data::extractSignedRanges` — requires
a wire cache; parses the cached bytes and returns the ordered byte ranges
(offset, length inside the cache) exactly spanning the Name, MetaInfo,
Content (if present) and SignatureInfo elements, failing with an error on
a structurally incomplete encoding. -/
def Data.extractSignedRanges (d : Data) : Except Err (List (Nat × Nat)) :=
  match d.wire with
  | none => .error .noWireError
  | some w =>
    match readTLV w with
    | none => .error .decodingError
    | some (t, v, rest) =>
      if t = tlv.Data ∧ rest = [] then
        let base := w.length - v.length
        match readTLV v with
        | none => .error .encodingError
        | some (t1, _, r1) =>
          if t1 = tlv.Name then
            let len1 := v.length - r1.length
            match readTLV r1 with
            | none => .error .encodingError
            | some (t2, _, r2) =>
              if t2 = tlv.MetaInfo then
                let len2 := r1.length - r2.length
                match readTLV r2 with
                | none => .error .encodingError
                | some (t3, _, r3) =>
                  if t3 = tlv.Content then
                    let len3 := r2.length - r3.length
                    match readTLV r3 with
                    | none => .error .encodingError
                    | some (t4, _, r4) =>
                      if t4 = tlv.SignatureInfo then
                        let len4 := r3.length - r4.length
                        .ok [(base, len1), (base + len1, len2),
                             (base + len1 + len2, len3),
                             (base + len1 + len2 + len3, len4)]
                      else .error .encodingError
                  else if t3 = tlv.SignatureInfo then
                    let len3 := r2.length - r3.length
                    .ok [(base, len1), (base + len1, len2),
                         (base + len1 + len2, len3)]
                  else .error .encodingError
              else .error .encodingError
          else .error .encodingError
      else .error .decodingError

/-- Modelled from the spec (§6): `operator==(Data, Data)` compares the
full field set — name, metaInfo, content, signatureInfo, signatureValue —
and not the cached state. -/
def metaInfoEqOp (a b : MetaInfo) : Bool :=
  a.mobilityFlag == b.mobilityFlag && a.hopLimit == b.hopLimit &&
    a.timeStamp == b.timeStamp && a.type == b.type &&
    a.freshnessPeriod == b.freshnessPeriod && a.finalBlock == b.finalBlock

/-- Modelled from the spec (§6): field-set equality of two packets. -/
def dataEqOp (a b : Data) : Bool :=
  a.name == b.name && metaInfoEqOp a.metaInfo b.metaInfo &&
    a.content == b.content && a.signatureInfo == b.signatureInfo &&
    a.signatureValue == b.signatureValue

/-- `operator!=(Data, Data)` from src/ndn-cxx/data.hpp: the negation of
`operator==`. -/
def dataNeqOp (a b : Data) : Bool :=
  !(dataEqOp a b)

/-- Representability of a MetaInfo value in the C++ field types: the hop
limit fits in `uint8_t`, the timestamp and freshness-period counts in
`int64_t`, the content-type code in `uint32_t`, and the final-block
component is of encodable size. -/
def MetaInfo.WF (m : MetaInfo) : Prop :=
  m.hopLimit < 2 ^ 8 ∧ -(2 ^ 63) ≤ m.timeStamp ∧ m.timeStamp < 2 ^ 63 ∧
    m.type < 2 ^ 32 ∧ -(2 ^ 63) ≤ m.freshnessPeriod ∧
    m.freshnessPeriod < 2 ^ 63 ∧
    (∀ fb, m.finalBlock = some fb → fb.length < 2 ^ 32)

/-- A validly constructed packet: the MetaInfo is representable and each
byte-carrying field is of encodable size (TLV lengths fit the
variable-size number codec, i.e. below 2^64; the bound 2^32 mirrors the
practical `size_t` limits and leaves headroom for the outer length). -/
def Data.WF (d : Data) : Prop :=
  d.metaInfo.WF ∧ d.name.length < 2 ^ 32 ∧ d.signatureInfo.length < 2 ^ 32 ∧
    (∀ c, d.content = some c → c.length < 2 ^ 32) ∧
    (∀ s, d.signatureValue = some s → s.length < 2 ^ 32)

/-- The concatenation, in order, of the sub-elements the MetaInfo
extension codec emits: a MobilityFlag element only if the flag is true, a
HopLimit element only if the hop limit is positive, and a TimeStamp
element always. -/
def metaParts (m : MetaInfo) : List Nat :=
  (if m.mobilityFlag then tlvBlock tlv.MobilityFlag (encodeNNI 1) else []) ++
    (if 0 < m.hopLimit then tlvBlock tlv.HopLimit (encodeNNI m.hopLimit) else []) ++
    tlvBlock tlv.TimeStamp (encodeNNI (uint64OfInt m.timeStamp))

/-- The byte concatenation of a list of parsed TLV elements. -/
def blocksEnc (bs : List Block) : List Nat :=
  (bs.map fun b => tlvBlock b.type b.value).flatten

/-- The sub-elements of the MetaInfo container of a MetaInfo value, in
the §6 order: ContentType, FreshnessPeriod and FinalBlockId (each present
iff the field is away from its default), then the extension elements
MobilityFlag (iff true), HopLimit (iff positive) and TimeStamp
(always). -/
def metaElemBlocks (m : MetaInfo) : List Block :=
  (if m.type ≠ 0 then [Block.mk tlv.ContentType (encodeNNI m.type)] else []) ++
    ((if m.freshnessPeriod ≠ 0 then
        [Block.mk tlv.FreshnessPeriod (encodeNNI (uint64OfInt m.freshnessPeriod))]
      else []) ++
      ((match m.finalBlock with
        | some fb => [Block.mk tlv.FinalBlockId fb]
        | none => []) ++
        ((if m.mobilityFlag then [Block.mk tlv.MobilityFlag (encodeNNI 1)] else []) ++
          ((if 0 < m.hopLimit then [Block.mk tlv.HopLimit (encodeNNI m.hopLimit)] else []) ++
            [Block.mk tlv.TimeStamp (encodeNNI (uint64OfInt m.timeStamp))]))))

/-- A concrete fully signed example packet (name /a/b, content bytes
1 2 3, signature value 0xAA 0xAA), used to instantiate the universally
quantified theorems. -/
def dEx : Data :=
  Data.mk [8, 1, 97, 8, 1, 98]
    (MetaInfo.mk true 5 42 0 0 none)
    (some [1, 2, 3]) [27, 1, 0] (some [170, 170]) none none

/-- The example packet with its wire cache populated by its own complete
encoding. -/
def dExWired : Data :=
  { dEx with wire := some (fullBytes dEx [170, 170]) }

/-- An unsigned example packet (no SignatureValue). -/
def dU : Data :=
  Data.mk [8, 1, 97, 8, 1, 98]
    (MetaInfo.mk true 5 42 0 0 none)
    (some [1, 2, 3]) [27, 1, 0] none none none

/-- The wire encoding of a complete but unsigned Data element: the
unsigned portion of `dU` wrapped in the outer Type-Length, with no
SignatureValue element. -/
def unsignedWireEx : List Nat :=
  tlvBlock tlv.Data (unsignedBytes dU)

/-- The packet obtained by decoding `unsignedWireEx`: all fields of `dU`
with the wire cache holding the input bytes. -/
def dUDecoded : Data :=
  { dU with wire := some unsignedWireEx }

/-- A HopLimit block whose nonnegative-integer value is 1000 (two
big-endian bytes), exceeding the `uint8_t` range of the hop-limit
field. -/
def hopBlock1000 : Block :=
  Block.mk tlv.HopLimit [3, 232]

/-! ### Byte-level lemmas -/

theorem toBytesBE_length (k n : Nat) : (toBytesBE k n).length = k := by
  induction k generalizing n with
  | zero => rfl
  | succ k ih => simp [toBytesBE, ih]

theorem fromBytesBE_toBytesBE (k v : Nat) (h : v < 256 ^ k) :
    fromBytesBE (toBytesBE k v) = v := by
  induction k generalizing v with
  | zero =>
    have : v = 0 := by simpa using h
    simp [this, toBytesBE, fromBytesBE]
  | succ k ih =>
    have hdiv : v / 256 < 256 ^ k := by
      have hlt : v < 256 * 256 ^ k := by
        rw [Nat.mul_comm, ← Nat.pow_succ]
        exact h
      exact Nat.div_lt_of_lt_mul hlt
    have hrec := ih (v / 256) hdiv
    simp only [toBytesBE, fromBytesBE, List.foldl_append, List.foldl] at *
    rw [hrec]
    omega

theorem encodeNNI_length_le (v : Nat) : (encodeNNI v).length ≤ 8 := by
  unfold encodeNNI
  split <;> [skip; split <;> [skip; split]] <;> simp [toBytesBE_length]

theorem encodeVarNum_length_le (n : Nat) : (encodeVarNum n).length ≤ 9 := by
  unfold encodeVarNum
  split <;> [skip; split <;> [skip; split]] <;> simp [toBytesBE_length]

theorem encodeVarNum_ne_nil (n : Nat) : encodeVarNum n ≠ [] := by
  unfold encodeVarNum
  split <;> [skip; split <;> [skip; split]] <;> simp [toBytesBE]

theorem tlvBlock_ne_nil (t : Nat) (v : List Nat) : tlvBlock t v ≠ [] := by
  simp [tlvBlock, encodeVarNum_ne_nil]

theorem tlvBlock_length_le (t : Nat) (v : List Nat) :
    (tlvBlock t v).length ≤ 18 + v.length := by
  have h1 := encodeVarNum_length_le t
  have h2 := encodeVarNum_length_le v.length
  simp only [tlvBlock, List.length_append]
  omega

theorem readNNI_encodeNNI (v : Nat) (h : v < 2 ^ 64) :
    readNNI (encodeNNI v) = some v := by
  unfold encodeNNI readNNI
  split
  · rw [if_pos (by simp [toBytesBE_length]), fromBytesBE_toBytesBE 1 v (by norm_num; omega)]
  · split
    · rw [if_pos (by simp [toBytesBE_length]), fromBytesBE_toBytesBE 2 v (by norm_num; omega)]
    · split
      · rw [if_pos (by simp [toBytesBE_length]), fromBytesBE_toBytesBE 4 v (by norm_num; omega)]
      · rw [if_pos (by simp [toBytesBE_length]), fromBytesBE_toBytesBE 8 v (by norm_num; omega)]

/-! ### TLV reader lemmas -/

theorem readVarNum_encodeVarNum (n : Nat) (rest : List Nat) (h : n < 2 ^ 64) :
    readVarNum (encodeVarNum n ++ rest) = some (n, rest) := by
  unfold encodeVarNum
  split
  · simp [readVarNum, *]
  · split
    · have h2 : toBytesBE 2 n = [n / 256 % 256, n % 256] := by
        simp [toBytesBE]
      rw [h2]
      simp only [List.cons_append, readVarNum]
      norm_num
      omega
    · split
      · have h4 : toBytesBE 4 n =
            [n / 256 / 256 / 256 % 256, n / 256 / 256 % 256, n / 256 % 256,
             n % 256] := by
          simp [toBytesBE]
        rw [h4]
        simp only [List.cons_append, readVarNum]
        norm_num
        omega
      · have h8 : toBytesBE 8 n =
            [n / 256 / 256 / 256 / 256 / 256 / 256 / 256 % 256,
             n / 256 / 256 / 256 / 256 / 256 / 256 % 256,
             n / 256 / 256 / 256 / 256 / 256 % 256,
             n / 256 / 256 / 256 / 256 % 256,
             n / 256 / 256 / 256 % 256, n / 256 / 256 % 256, n / 256 % 256,
             n % 256] := by
          simp [toBytesBE]
        rw [h8]
        simp only [List.cons_append, readVarNum]
        norm_num
        omega

theorem readTLV_encode (t : Nat) (v rest : List Nat) (ht : t < 2 ^ 64)
    (hv : v.length < 2 ^ 64) :
    readTLV (tlvBlock t v ++ rest) = some (t, v, rest) := by
  have e1 := readVarNum_encodeVarNum t (encodeVarNum v.length ++ (v ++ rest)) ht
  have e2 := readVarNum_encodeVarNum v.length (v ++ rest) hv
  simp [tlvBlock, readTLV, List.append_assoc, e1, e2, List.take_left,
    List.drop_left]

theorem readTLV_encode_nil (t : Nat) (v : List Nat) (ht : t < 2 ^ 64)
    (hv : v.length < 2 ^ 64) :
    readTLV (tlvBlock t v) = some (t, v, []) := by
  rw [← List.append_nil (tlvBlock t v)]
  exact readTLV_encode t v [] ht hv

theorem readVarNum_shrinks (bs : List Nat) (n : Nat) (rest : List Nat)
    (h : readVarNum bs = some (n, rest)) : rest.length < bs.length := by
  cases bs with
  | nil => simp [readVarNum] at h
  | cons f tail =>
    simp only [readVarNum] at h
    split at h
    · cases h
      simp
    · split at h
      · split at h
        all_goals first
          | (simp at h; done)
          | (cases h; simp; try omega)
      · split at h
        · split at h
          all_goals first
            | (simp at h; done)
            | (cases h; simp; try omega)
        · split at h
          all_goals first
            | (simp at h; done)
            | (cases h; simp; try omega)

theorem readTLV_shrinks (bs : List Nat) (t : Nat) (v rest : List Nat)
    (h : readTLV bs = some (t, v, rest)) : rest.length < bs.length := by
  unfold readTLV at h
  cases hr1 : readVarNum bs with
  | none =>
    rw [hr1] at h
    simp at h
  | some p1 =>
    obtain ⟨t1, r1⟩ := p1
    rw [hr1, Option.some_bind] at h
    cases hr2 : readVarNum r1 with
    | none =>
      rw [hr2] at h
      simp at h
    | some p2 =>
      obtain ⟨len, r2⟩ := p2
      rw [hr2, Option.some_bind] at h
      split at h
      · cases h
        have s1 := readVarNum_shrinks bs t1 r1 hr1
        have s2 := readVarNum_shrinks r1 len r2 hr2
        simp only [List.length_drop]
        omega
      · simp at h

theorem parseBlocksAux_fuel (fuel : Nat) (bs : List Nat)
    (h : bs.length ≤ fuel) : parseBlocksAux fuel bs = parseBlocks bs := by
  induction fuel using Nat.strong_induction_on generalizing bs with
  | _ fuel ih =>
    cases bs with
    | nil =>
      cases fuel <;> rfl
    | cons b tail =>
      have hlen : (b :: tail).length = tail.length + 1 := by simp
      obtain ⟨f, rfl⟩ : ∃ f, fuel = f + 1 := by
        cases fuel with
        | zero => simp at h
        | succ f => exact ⟨f, rfl⟩
      show ((readTLV (b :: tail)).bind fun p =>
        (parseBlocksAux f p.2.2).map (fun tl => Block.mk p.1 p.2.1 :: tl)) = _
      rw [parseBlocks]
      rw [hlen]
      show _ = ((readTLV (b :: tail)).bind fun p =>
        (parseBlocksAux tail.length p.2.2).map (fun tl => Block.mk p.1 p.2.1 :: tl))
      cases hr : readTLV (b :: tail) with
      | none => rfl
      | some p =>
        obtain ⟨t, v, rest⟩ := p
        have hs := readTLV_shrinks _ _ _ _ hr
        simp only [hlen] at hs
        have e1 : parseBlocksAux f rest = parseBlocks rest := by
          apply ih f (by omega) rest (by omega)
        have e2 : parseBlocksAux tail.length rest = parseBlocks rest := by
          apply ih tail.length (by omega) rest (by omega)
        simp [e1, e2]

theorem parseBlocks_cons (t : Nat) (v rest : List Nat) (ht : t < 2 ^ 64)
    (hv : v.length < 2 ^ 64) :
    parseBlocks (tlvBlock t v ++ rest) =
      (parseBlocks rest).map (fun tl => Block.mk t v :: tl) := by
  have hne : tlvBlock t v ++ rest ≠ [] := by
    simp [tlvBlock, encodeVarNum_ne_nil]
  obtain ⟨b, tail, hbt⟩ : ∃ b tail, tlvBlock t v ++ rest = b :: tail := by
    cases hx : tlvBlock t v ++ rest with
    | nil => exact absurd hx hne
    | cons b tail => exact ⟨b, tail, rfl⟩
  have hr : readTLV (b :: tail) = some (t, v, rest) := by
    rw [← hbt]
    exact readTLV_encode t v rest ht hv
  have hs := readTLV_shrinks _ _ _ _ hr
  rw [parseBlocks, hbt]
  have hlen : (b :: tail).length = tail.length + 1 := by simp
  rw [hlen]
  show ((readTLV (b :: tail)).bind fun p =>
    (parseBlocksAux tail.length p.2.2).map (fun tl => Block.mk p.1 p.2.1 :: tl)) = _
  rw [hr, Option.some_bind]
  have : parseBlocksAux tail.length rest = parseBlocks rest := by
    apply parseBlocksAux_fuel
    simp at hs
    omega
  simp [this]

theorem parseBlocks_single (t : Nat) (v : List Nat) (ht : t < 2 ^ 64)
    (hv : v.length < 2 ^ 64) :
    parseBlocks (tlvBlock t v) = some [Block.mk t v] := by
  have h := parseBlocks_cons t v [] ht hv
  rw [List.append_nil] at h
  rw [h]
  rfl

/-! ### MetaInfo codec lemmas -/

theorem MetaInfo.wireEncode_eq (m : MetaInfo) (e : Encoder) :
    m.wireEncode e = ((metaParts m).length, Encoder.mk (e.buf ++ metaParts m)) := by
  by_cases hf : m.mobilityFlag <;> by_cases hh : 0 < m.hopLimit <;>
    (simp [MetaInfo.wireEncode, MetaInfo.hasHopLimit,
       Encoder.appendNonNegativeIntegerBlock, metaParts, hf, hh,
       List.append_assoc]
     try omega)

theorem MetaInfo.encodeBytes_eq (m : MetaInfo) : m.encodeBytes = metaParts m := by
  simp [MetaInfo.encodeBytes, MetaInfo.wireEncode_eq]

theorem uint64OfInt_lt (i : Int) : uint64OfInt i < 2 ^ 64 := by
  unfold uint64OfInt
  omega

theorem toSigned64_uint64OfInt (i : Int) (h1 : -(2 ^ 63) ≤ i) (h2 : i < 2 ^ 63) :
    toSigned64 (uint64OfInt i) = i := by
  unfold toSigned64 uint64OfInt
  split <;> omega

theorem metaParts_length_le (m : MetaInfo) : (metaParts m).length ≤ 78 := by
  have b1 := tlvBlock_length_le tlv.MobilityFlag (encodeNNI 1)
  have b2 := tlvBlock_length_le tlv.HopLimit (encodeNNI m.hopLimit)
  have b3 := tlvBlock_length_le tlv.TimeStamp (encodeNNI (uint64OfInt m.timeStamp))
  have n1 := encodeNNI_length_le 1
  have n2 := encodeNNI_length_le m.hopLimit
  have n3 := encodeNNI_length_le (uint64OfInt m.timeStamp)
  unfold metaParts
  split <;> split <;> simp only [List.length_append, List.length_nil] <;> omega

theorem MetaInfo.wireDecode_mobility (m : MetaInfo) (v : List Nat) :
    m.wireDecode (Block.mk tlv.MobilityFlag v) =
      some { m with mobilityFlag := true } := by
  simp [MetaInfo.wireDecode, tlv.MobilityFlag, tlv.HopLimit, tlv.TimeStamp]

theorem MetaInfo.wireDecode_hopLimit (m : MetaInfo) (v : List Nat) (n : Nat)
    (h : readNNI v = some n) :
    m.wireDecode (Block.mk tlv.HopLimit v) =
      some { m with hopLimit := n % 2 ^ 8 } := by
  simp [MetaInfo.wireDecode, tlv.MobilityFlag, tlv.HopLimit, tlv.TimeStamp, h]

theorem MetaInfo.wireDecode_timeStamp (m : MetaInfo) (v : List Nat) (n : Nat)
    (h : readNNI v = some n) :
    m.wireDecode (Block.mk tlv.TimeStamp v) =
      some { m with timeStamp := toSigned64 n } := by
  simp [MetaInfo.wireDecode, tlv.MobilityFlag, tlv.HopLimit, tlv.TimeStamp, h]

theorem MetaInfo.wireDecode_other (m : MetaInfo) (b : Block)
    (h1 : b.type ≠ tlv.MobilityFlag) (h2 : b.type ≠ tlv.HopLimit)
    (h3 : b.type ≠ tlv.TimeStamp) : m.wireDecode b = some m := by
  simp [MetaInfo.wireDecode, h1, h2, h3]

theorem coreParts_length_le (m : MetaInfo)
    (hfb : ∀ fb, m.finalBlock = some fb → fb.length < 2 ^ 32) :
    (coreParts m).length ≤ 70 + 2 ^ 32 := by
  have n1 := encodeNNI_length_le m.type
  have n2 := encodeNNI_length_le (uint64OfInt m.freshnessPeriod)
  have b1 := tlvBlock_length_le tlv.ContentType (encodeNNI m.type)
  have b2 := tlvBlock_length_le tlv.FreshnessPeriod
    (encodeNNI (uint64OfInt m.freshnessPeriod))
  have hfb2 : (match m.finalBlock with
      | some fb => tlvBlock tlv.FinalBlockId fb
      | none => ([] : List Nat)).length ≤ 18 + 2 ^ 32 := by
    split
    · next fb heq =>
      have hl := hfb fb heq
      have b3 := tlvBlock_length_le tlv.FinalBlockId fb
      omega
    · simp
  unfold coreParts
  simp only [List.length_append]
  split <;> split <;> (try simp only [List.length_nil]) <;> omega

theorem metaElemValue_length_le (m : MetaInfo)
    (hfb : ∀ fb, m.finalBlock = some fb → fb.length < 2 ^ 32) :
    (metaElemValue m).length ≤ 148 + 2 ^ 32 := by
  have h1 : m.encodeBytes.length ≤ 78 := by
    rw [MetaInfo.encodeBytes_eq]
    exact metaParts_length_le m
  have h2 := coreParts_length_le m hfb
  simp only [metaElemValue, List.length_append]
  omega

theorem parseBlocks_blocksEnc (bs : List Block)
    (h : ∀ b ∈ bs, b.type < 2 ^ 64 ∧ b.value.length < 2 ^ 64) :
    parseBlocks (blocksEnc bs) = some bs := by
  induction bs with
  | nil => rfl
  | cons b t ih =>
    have hb := h b (by simp)
    have ht : ∀ x ∈ t, x.type < 2 ^ 64 ∧ x.value.length < 2 ^ 64 :=
      fun x hx => h x (by simp [hx])
    have hsplit : blocksEnc (b :: t) = tlvBlock b.type b.value ++ blocksEnc t := by
      simp [blocksEnc]
    rw [hsplit, parseBlocks_cons _ _ _ hb.1 hb.2, ih ht]
    rfl

theorem metaElemValue_eq (m : MetaInfo) :
    metaElemValue m = blocksEnc (metaElemBlocks m) := by
  rw [metaElemValue, MetaInfo.encodeBytes_eq]
  by_cases h1 : m.type ≠ 0 <;> by_cases h2 : m.freshnessPeriod ≠ 0 <;>
    cases hf : m.finalBlock <;> by_cases h4 : m.mobilityFlag <;>
    by_cases h5 : 0 < m.hopLimit <;>
    simp [coreParts, metaParts, metaElemBlocks, blocksEnc, h1, h2, hf, h4, h5,
      List.append_assoc]

theorem metaElemBlocks_bounds (m : MetaInfo)
    (hfb : ∀ fb, m.finalBlock = some fb → fb.length < 2 ^ 32) :
    ∀ b ∈ metaElemBlocks m, b.type < 2 ^ 64 ∧ b.value.length < 2 ^ 64 := by
  intro b hb
  unfold metaElemBlocks at hb
  simp only [List.mem_append] at hb
  rcases hb with hb | hb | hb | hb | hb | hb
  · split at hb
    · simp at hb
      subst hb
      have := encodeNNI_length_le m.type
      exact ⟨by norm_num [tlv.ContentType], by simp; omega⟩
    · simp at hb
  · split at hb
    · simp at hb
      subst hb
      have := encodeNNI_length_le (uint64OfInt m.freshnessPeriod)
      exact ⟨by norm_num [tlv.FreshnessPeriod], by simp; omega⟩
    · simp at hb
  · split at hb
    · next fb heq =>
      simp at hb
      subst hb
      have := hfb fb heq
      exact ⟨by norm_num [tlv.FinalBlockId], by simp; omega⟩
    · simp at hb
  · split at hb
    · simp at hb
      subst hb
      have := encodeNNI_length_le 1
      exact ⟨by norm_num [tlv.MobilityFlag], by simp; omega⟩
    · simp at hb
  · split at hb
    · simp at hb
      subst hb
      have := encodeNNI_length_le m.hopLimit
      exact ⟨by norm_num [tlv.HopLimit], by simp; omega⟩
    · simp at hb
  · simp at hb
    subst hb
    have := encodeNNI_length_le (uint64OfInt m.timeStamp)
    exact ⟨by norm_num [tlv.TimeStamp], by simp; omega⟩

theorem metaInfoElemDecode_ext (m : MetaInfo) (b : Block)
    (h1 : b.type ≠ tlv.ContentType) (h2 : b.type ≠ tlv.FreshnessPeriod)
    (h3 : b.type ≠ tlv.FinalBlockId) :
    metaInfoElemDecode m b = m.wireDecode b := by
  simp [metaInfoElemDecode, h1, h2, h3]

theorem foldSeg_ct (m m0 : MetaInfo) (hty : m.type < 2 ^ 32)
    (h0 : m0.type = 0) :
    List.foldlM metaInfoElemDecode m0
      (if m.type ≠ 0 then [Block.mk tlv.ContentType (encodeNNI m.type)] else []) =
      some { m0 with type := m.type } := by
  split
  · have hr : readNNI (encodeNNI m.type) = some m.type :=
      readNNI_encodeNNI m.type (by omega)
    simp [List.foldlM, metaInfoElemDecode, hr, Nat.mod_eq_of_lt hty, hty]
    omega
  · next h =>
    push_neg at h
    obtain ⟨a1, a2, a3, a4, a5, a6⟩ := m0
    simp only at h0
    subst h0
    simp [List.foldlM, h]

theorem foldSeg_fp (m m0 : MetaInfo) (hfp1 : -(2 ^ 63) ≤ m.freshnessPeriod)
    (hfp2 : m.freshnessPeriod < 2 ^ 63) (h0 : m0.freshnessPeriod = 0) :
    List.foldlM metaInfoElemDecode m0
      (if m.freshnessPeriod ≠ 0 then
        [Block.mk tlv.FreshnessPeriod (encodeNNI (uint64OfInt m.freshnessPeriod))]
      else []) = some { m0 with freshnessPeriod := m.freshnessPeriod } := by
  split
  · have hr : readNNI (encodeNNI (uint64OfInt m.freshnessPeriod)) =
        some (uint64OfInt m.freshnessPeriod) :=
      readNNI_encodeNNI _ (uint64OfInt_lt m.freshnessPeriod)
    simp [List.foldlM, metaInfoElemDecode, hr, tlv.ContentType,
      tlv.FreshnessPeriod, toSigned64_uint64OfInt m.freshnessPeriod hfp1 hfp2]
  · next h =>
    push_neg at h
    obtain ⟨a1, a2, a3, a4, a5, a6⟩ := m0
    simp only at h0
    subst h0
    simp [List.foldlM, h]

theorem foldSeg_fb (m m0 : MetaInfo) (h0 : m0.finalBlock = none) :
    List.foldlM metaInfoElemDecode m0
      (match m.finalBlock with
       | some fb => [Block.mk tlv.FinalBlockId fb]
       | none => []) = some { m0 with finalBlock := m.finalBlock } := by
  cases hf : m.finalBlock with
  | some fb =>
    simp [List.foldlM, metaInfoElemDecode, tlv.ContentType, tlv.FreshnessPeriod,
      tlv.FinalBlockId]
  | none =>
    obtain ⟨a1, a2, a3, a4, a5, a6⟩ := m0
    simp only at h0
    subst h0
    simp [List.foldlM]

theorem foldSeg_mob (m m0 : MetaInfo) (h0 : m0.mobilityFlag = false) :
    List.foldlM metaInfoElemDecode m0
      (if m.mobilityFlag then [Block.mk tlv.MobilityFlag (encodeNNI 1)] else []) =
      some { m0 with mobilityFlag := m.mobilityFlag } := by
  split
  · next h =>
    simp [List.foldlM, metaInfoElemDecode, MetaInfo.wireDecode, tlv.ContentType,
      tlv.FreshnessPeriod, tlv.FinalBlockId, tlv.MobilityFlag, tlv.HopLimit,
      tlv.TimeStamp, h]
  · next h =>
    simp only [Bool.not_eq_true] at h
    obtain ⟨a1, a2, a3, a4, a5, a6⟩ := m0
    simp only at h0
    subst h0
    simp [List.foldlM, h]

theorem foldSeg_hop (m m0 : MetaInfo) (hhop : m.hopLimit < 2 ^ 8)
    (h0 : m0.hopLimit = 0) :
    List.foldlM metaInfoElemDecode m0
      (if 0 < m.hopLimit then [Block.mk tlv.HopLimit (encodeNNI m.hopLimit)] else []) =
      some { m0 with hopLimit := m.hopLimit } := by
  split
  · have hr : readNNI (encodeNNI m.hopLimit) = some m.hopLimit :=
      readNNI_encodeNNI m.hopLimit (by omega)
    simp [List.foldlM, metaInfoElemDecode, MetaInfo.wireDecode, tlv.ContentType,
      tlv.FreshnessPeriod, tlv.FinalBlockId, tlv.MobilityFlag, tlv.HopLimit,
      tlv.TimeStamp, hr, Nat.mod_eq_of_lt hhop, hhop]
    omega
  · next h =>
    have h2 : m.hopLimit = 0 := by omega
    obtain ⟨a1, a2, a3, a4, a5, a6⟩ := m0
    simp only at h0
    subst h0
    simp [List.foldlM, h2]

theorem foldSeg_ts (m m0 : MetaInfo) (hts1 : -(2 ^ 63) ≤ m.timeStamp)
    (hts2 : m.timeStamp < 2 ^ 63) :
    List.foldlM metaInfoElemDecode m0
      [Block.mk tlv.TimeStamp (encodeNNI (uint64OfInt m.timeStamp))] =
      some { m0 with timeStamp := m.timeStamp } := by
  have hr : readNNI (encodeNNI (uint64OfInt m.timeStamp)) =
      some (uint64OfInt m.timeStamp) :=
    readNNI_encodeNNI _ (uint64OfInt_lt m.timeStamp)
  simp [List.foldlM, metaInfoElemDecode, MetaInfo.wireDecode, tlv.ContentType,
    tlv.FreshnessPeriod, tlv.FinalBlockId, tlv.MobilityFlag, tlv.HopLimit,
    tlv.TimeStamp, hr, toSigned64_uint64OfInt m.timeStamp hts1 hts2]

theorem decodeMetaValue_elem (m : MetaInfo) (hWF : m.WF) :
    decodeMetaValue (metaElemValue m) = some m := by
  obtain ⟨hhop, hts1, hts2, hty, hfp1, hfp2, hfb⟩ := hWF
  rw [decodeMetaValue, metaElemValue_eq,
    parseBlocks_blocksEnc _ (metaElemBlocks_bounds m hfb), Option.some_bind]
  unfold metaElemBlocks
  rw [List.foldlM_append, foldSeg_ct m {} hty rfl]
  simp only [Option.some_bind, Option.bind_eq_bind]
  rw [List.foldlM_append, foldSeg_fp m _ hfp1 hfp2 rfl]
  simp only [Option.some_bind, Option.bind_eq_bind]
  rw [List.foldlM_append, foldSeg_fb m _ rfl]
  simp only [Option.some_bind, Option.bind_eq_bind]
  rw [List.foldlM_append, foldSeg_mob m _ rfl]
  simp only [Option.some_bind, Option.bind_eq_bind]
  rw [List.foldlM_append, foldSeg_hop m _ hhop rfl]
  simp only [Option.some_bind, Option.bind_eq_bind]
  rw [foldSeg_ts m _ hts1 hts2]

theorem unsignedBytes_length_lt (d : Data) (hWF : d.WF) :
    (unsignedBytes d).length < 2 ^ 40 := by
  obtain ⟨hm, hn, hs, hc, hv⟩ := hWF
  have b1 := tlvBlock_length_le tlv.Name d.name
  have hmb : (metaElemValue d.metaInfo).length ≤ 148 + 2 ^ 32 :=
    metaElemValue_length_le d.metaInfo hm.2.2.2.2.2.2
  have b2 := tlvBlock_length_le tlv.MetaInfo (metaElemValue d.metaInfo)
  have b4 := tlvBlock_length_le tlv.SignatureInfo d.signatureInfo
  unfold unsignedBytes
  cases hcc : d.content with
  | none =>
    simp only [List.length_append, List.length_nil]
    omega
  | some c =>
    have hcl : c.length < 2 ^ 32 := hc c hcc
    have b3 := tlvBlock_length_le tlv.Content c
    simp only [List.length_append]
    omega

theorem dataWireDecode_fullBytes (d : Data) (sv : List Nat) (hWF : d.WF)
    (hsvl : sv.length < 2 ^ 32) :
    dataWireDecode (fullBytes d sv) =
      .ok (Data.mk d.name d.metaInfo d.content d.signatureInfo (some sv)
        (some (fullBytes d sv)) none) := by
  have hub := unsignedBytes_length_lt d hWF
  obtain ⟨hm, hn, hs, hc, _⟩ := hWF
  have hsvb := tlvBlock_length_le tlv.SignatureValue sv
  have hVl : (unsignedBytes d ++ tlvBlock tlv.SignatureValue sv).length < 2 ^ 64 := by
    simp only [List.length_append]
    omega
  have hNl : d.name.length < 2 ^ 64 := by omega
  have hMl : (metaElemValue d.metaInfo).length < 2 ^ 64 := by
    have := metaElemValue_length_le d.metaInfo hm.2.2.2.2.2.2
    omega
  have hSl : d.signatureInfo.length < 2 ^ 64 := by omega
  have hsvl64 : sv.length < 2 ^ 64 := by omega
  have h1 : readTLV (fullBytes d sv) =
      some (tlv.Data, unsignedBytes d ++ tlvBlock tlv.SignatureValue sv, []) := by
    rw [fullBytes]
    exact readTLV_encode_nil _ _ (by decide) hVl
  have hmeta : decodeMetaValue (metaElemValue d.metaInfo) = some d.metaInfo :=
    decodeMetaValue_elem d.metaInfo hm
  have h6 : readTLV (tlvBlock tlv.SignatureValue sv) =
      some (tlv.SignatureValue, sv, []) :=
    readTLV_encode_nil _ _ (by decide) hsvl64
  have hne := tlvBlock_ne_nil tlv.SignatureValue sv
  have ne1 : tlv.SignatureInfo ≠ tlv.Content := by decide
  cases hcc : d.content with
  | none =>
    have h2 : readTLV (unsignedBytes d ++ tlvBlock tlv.SignatureValue sv) =
        some (tlv.Name, d.name,
          tlvBlock tlv.MetaInfo (metaElemValue d.metaInfo) ++
            (tlvBlock tlv.SignatureInfo d.signatureInfo ++
              tlvBlock tlv.SignatureValue sv)) := by
      have hV : unsignedBytes d ++ tlvBlock tlv.SignatureValue sv =
          tlvBlock tlv.Name d.name ++
            (tlvBlock tlv.MetaInfo (metaElemValue d.metaInfo) ++
              (tlvBlock tlv.SignatureInfo d.signatureInfo ++
                tlvBlock tlv.SignatureValue sv)) := by
        simp [unsignedBytes, hcc, List.append_assoc]
      rw [hV]
      exact readTLV_encode _ _ _ (by decide) hNl
    have h3 : readTLV (tlvBlock tlv.MetaInfo (metaElemValue d.metaInfo) ++
        (tlvBlock tlv.SignatureInfo d.signatureInfo ++
          tlvBlock tlv.SignatureValue sv)) =
        some (tlv.MetaInfo, (metaElemValue d.metaInfo),
          tlvBlock tlv.SignatureInfo d.signatureInfo ++
            tlvBlock tlv.SignatureValue sv) :=
      readTLV_encode _ _ _ (by decide) hMl
    have h4 : readTLV (tlvBlock tlv.SignatureInfo d.signatureInfo ++
        tlvBlock tlv.SignatureValue sv) =
        some (tlv.SignatureInfo, d.signatureInfo,
          tlvBlock tlv.SignatureValue sv) :=
      readTLV_encode _ _ _ (by decide) hSl
    simp [dataWireDecode, h1, h2, h3, h4, h6, hmeta, finishDecode, hne, ne1,
      hcc]
  | some c =>
    have hCl : c.length < 2 ^ 64 := by
      have := hc c hcc
      omega
    have h2 : readTLV (unsignedBytes d ++ tlvBlock tlv.SignatureValue sv) =
        some (tlv.Name, d.name,
          tlvBlock tlv.MetaInfo (metaElemValue d.metaInfo) ++
            (tlvBlock tlv.Content c ++
              (tlvBlock tlv.SignatureInfo d.signatureInfo ++
                tlvBlock tlv.SignatureValue sv))) := by
      have hV : unsignedBytes d ++ tlvBlock tlv.SignatureValue sv =
          tlvBlock tlv.Name d.name ++
            (tlvBlock tlv.MetaInfo (metaElemValue d.metaInfo) ++
              (tlvBlock tlv.Content c ++
                (tlvBlock tlv.SignatureInfo d.signatureInfo ++
                  tlvBlock tlv.SignatureValue sv))) := by
        simp [unsignedBytes, hcc, List.append_assoc]
      rw [hV]
      exact readTLV_encode _ _ _ (by decide) hNl
    have h3 : readTLV (tlvBlock tlv.MetaInfo (metaElemValue d.metaInfo) ++
        (tlvBlock tlv.Content c ++
          (tlvBlock tlv.SignatureInfo d.signatureInfo ++
            tlvBlock tlv.SignatureValue sv))) =
        some (tlv.MetaInfo, (metaElemValue d.metaInfo),
          tlvBlock tlv.Content c ++
            (tlvBlock tlv.SignatureInfo d.signatureInfo ++
              tlvBlock tlv.SignatureValue sv)) :=
      readTLV_encode _ _ _ (by decide) hMl
    have h35 : readTLV (tlvBlock tlv.Content c ++
        (tlvBlock tlv.SignatureInfo d.signatureInfo ++
          tlvBlock tlv.SignatureValue sv)) =
        some (tlv.Content, c,
          tlvBlock tlv.SignatureInfo d.signatureInfo ++
            tlvBlock tlv.SignatureValue sv) :=
      readTLV_encode _ _ _ (by decide) hCl
    have h4 : readTLV (tlvBlock tlv.SignatureInfo d.signatureInfo ++
        tlvBlock tlv.SignatureValue sv) =
        some (tlv.SignatureInfo, d.signatureInfo,
          tlvBlock tlv.SignatureValue sv) :=
      readTLV_encode _ _ _ (by decide) hSl
    simp [dataWireDecode, h1, h2, h3, h35, h4, h6, hmeta, finishDecode, hne,
      ne1, hcc]

theorem rangeBytes_mid (w p m s : List Nat) (off len : Nat)
    (hw : w = p ++ (m ++ s)) (hoff : off = p.length) (hlen : len = m.length) :
    rangeBytes w (off, len) = m := by
  subst hw hoff hlen
  simp [rangeBytes, List.drop_left, List.take_left]

theorem extractSignedRanges_fullBytes (d : Data) (sv : List Nat) (hWF : d.WF)
    (hsvl : sv.length < 2 ^ 32) (hw : d.wire = some (fullBytes d sv)) :
    ∃ rs, d.extractSignedRanges = .ok rs ∧
      (rs.map (rangeBytes (fullBytes d sv))).flatten = unsignedBytes d := by
  have hub := unsignedBytes_length_lt d hWF
  obtain ⟨hm, hn, hs, hc, _⟩ := hWF
  have hsvb := tlvBlock_length_le tlv.SignatureValue sv
  have hVl : (unsignedBytes d ++ tlvBlock tlv.SignatureValue sv).length < 2 ^ 64 := by
    simp only [List.length_append]
    omega
  have hNl : d.name.length < 2 ^ 64 := by omega
  have hMl : (metaElemValue d.metaInfo).length < 2 ^ 64 := by
    have := metaElemValue_length_le d.metaInfo hm.2.2.2.2.2.2
    omega
  have hSl : d.signatureInfo.length < 2 ^ 64 := by omega
  have h1 : readTLV (fullBytes d sv) =
      some (tlv.Data, unsignedBytes d ++ tlvBlock tlv.SignatureValue sv, []) := by
    rw [fullBytes]
    exact readTLV_encode_nil _ _ (by decide) hVl
  have hwfull : fullBytes d sv =
      (encodeVarNum tlv.Data ++
        encodeVarNum (unsignedBytes d ++ tlvBlock tlv.SignatureValue sv).length) ++
        (unsignedBytes d ++ tlvBlock tlv.SignatureValue sv) := by
    simp [fullBytes, tlvBlock, List.append_assoc]
  have ne1 : tlv.SignatureInfo ≠ tlv.Content := by decide
  cases hcc : d.content with
  | none =>
    have hV : unsignedBytes d ++ tlvBlock tlv.SignatureValue sv =
        tlvBlock tlv.Name d.name ++
          (tlvBlock tlv.MetaInfo (metaElemValue d.metaInfo) ++
            (tlvBlock tlv.SignatureInfo d.signatureInfo ++
              tlvBlock tlv.SignatureValue sv)) := by
      simp [unsignedBytes, hcc, List.append_assoc]
    have h2 : readTLV (unsignedBytes d ++ tlvBlock tlv.SignatureValue sv) =
        some (tlv.Name, d.name,
          tlvBlock tlv.MetaInfo (metaElemValue d.metaInfo) ++
            (tlvBlock tlv.SignatureInfo d.signatureInfo ++
              tlvBlock tlv.SignatureValue sv)) := by
      rw [hV]
      exact readTLV_encode _ _ _ (by decide) hNl
    have h3 : readTLV (tlvBlock tlv.MetaInfo (metaElemValue d.metaInfo) ++
        (tlvBlock tlv.SignatureInfo d.signatureInfo ++
          tlvBlock tlv.SignatureValue sv)) =
        some (tlv.MetaInfo, (metaElemValue d.metaInfo),
          tlvBlock tlv.SignatureInfo d.signatureInfo ++
            tlvBlock tlv.SignatureValue sv) :=
      readTLV_encode _ _ _ (by decide) hMl
    have h4 : readTLV (tlvBlock tlv.SignatureInfo d.signatureInfo ++
        tlvBlock tlv.SignatureValue sv) =
        some (tlv.SignatureInfo, d.signatureInfo,
          tlvBlock tlv.SignatureValue sv) :=
      readTLV_encode _ _ _ (by decide) hSl
    refine ⟨[((encodeVarNum tlv.Data ++
        encodeVarNum (unsignedBytes d ++ tlvBlock tlv.SignatureValue sv).length).length,
        (tlvBlock tlv.Name d.name).length),
      ((encodeVarNum tlv.Data ++
        encodeVarNum (unsignedBytes d ++ tlvBlock tlv.SignatureValue sv).length).length +
        (tlvBlock tlv.Name d.name).length,
        (tlvBlock tlv.MetaInfo (metaElemValue d.metaInfo)).length),
      ((encodeVarNum tlv.Data ++
        encodeVarNum (unsignedBytes d ++ tlvBlock tlv.SignatureValue sv).length).length +
        (tlvBlock tlv.Name d.name).length +
        (tlvBlock tlv.MetaInfo (metaElemValue d.metaInfo)).length,
        (tlvBlock tlv.SignatureInfo d.signatureInfo).length)], ?_, ?_⟩
    · unfold Data.extractSignedRanges
      rw [hw]
      simp only [h1, h2, h3, h4, ne1, Option.some_bind]
      have lw : (fullBytes d sv).length =
          (encodeVarNum tlv.Data ++
            encodeVarNum (unsignedBytes d ++ tlvBlock tlv.SignatureValue sv).length).length +
          (unsignedBytes d ++ tlvBlock tlv.SignatureValue sv).length := by
        rw [hwfull]
        simp only [List.length_append]
        try omega
      have lV : (unsignedBytes d ++ tlvBlock tlv.SignatureValue sv).length =
          (tlvBlock tlv.Name d.name).length +
            ((tlvBlock tlv.MetaInfo (metaElemValue d.metaInfo)).length +
              ((tlvBlock tlv.SignatureInfo d.signatureInfo).length +
                (tlvBlock tlv.SignatureValue sv).length)) := by
        rw [hV]
        simp only [List.length_append]
        try omega
      simp [h1, h2, h3, h4, ne1]
      simp only [List.length_append] at lw lV
      omega
    · have r1 : rangeBytes (fullBytes d sv)
          ((encodeVarNum tlv.Data ++
            encodeVarNum (unsignedBytes d ++ tlvBlock tlv.SignatureValue sv).length).length,
           (tlvBlock tlv.Name d.name).length) = tlvBlock tlv.Name d.name := by
        apply rangeBytes_mid _ _ _
          (tlvBlock tlv.MetaInfo (metaElemValue d.metaInfo) ++
            (tlvBlock tlv.SignatureInfo d.signatureInfo ++
              tlvBlock tlv.SignatureValue sv)) _ _ _ rfl rfl
        rw [hwfull, hV]
      have r2 : rangeBytes (fullBytes d sv)
          ((encodeVarNum tlv.Data ++
            encodeVarNum (unsignedBytes d ++ tlvBlock tlv.SignatureValue sv).length).length +
            (tlvBlock tlv.Name d.name).length,
           (tlvBlock tlv.MetaInfo (metaElemValue d.metaInfo)).length) =
          tlvBlock tlv.MetaInfo (metaElemValue d.metaInfo) := by
        apply rangeBytes_mid _ ((encodeVarNum tlv.Data ++
            encodeVarNum (unsignedBytes d ++ tlvBlock tlv.SignatureValue sv).length) ++
            tlvBlock tlv.Name d.name) _
          (tlvBlock tlv.SignatureInfo d.signatureInfo ++
            tlvBlock tlv.SignatureValue sv) _ _ ?_ (by simp; try omega) rfl
        rw [hwfull, hV]
        simp [List.append_assoc]
      have r3 : rangeBytes (fullBytes d sv)
          ((encodeVarNum tlv.Data ++
            encodeVarNum (unsignedBytes d ++ tlvBlock tlv.SignatureValue sv).length).length +
            (tlvBlock tlv.Name d.name).length +
            (tlvBlock tlv.MetaInfo (metaElemValue d.metaInfo)).length,
           (tlvBlock tlv.SignatureInfo d.signatureInfo).length) =
          tlvBlock tlv.SignatureInfo d.signatureInfo := by
        apply rangeBytes_mid _ (((encodeVarNum tlv.Data ++
            encodeVarNum (unsignedBytes d ++ tlvBlock tlv.SignatureValue sv).length) ++
            tlvBlock tlv.Name d.name) ++
            tlvBlock tlv.MetaInfo (metaElemValue d.metaInfo)) _
          (tlvBlock tlv.SignatureValue sv) _ _ ?_ (by simp; try omega) rfl
        rw [hwfull, hV]
        simp [List.append_assoc]
      simp only [List.map, r1, r2, r3, List.flatten]
      simp [unsignedBytes, hcc, List.append_assoc]
  | some c =>
    have hCl : c.length < 2 ^ 64 := by
      have := hc c hcc
      omega
    have hV : unsignedBytes d ++ tlvBlock tlv.SignatureValue sv =
        tlvBlock tlv.Name d.name ++
          (tlvBlock tlv.MetaInfo (metaElemValue d.metaInfo) ++
            (tlvBlock tlv.Content c ++
              (tlvBlock tlv.SignatureInfo d.signatureInfo ++
                tlvBlock tlv.SignatureValue sv))) := by
      simp [unsignedBytes, hcc, List.append_assoc]
    have h2 : readTLV (unsignedBytes d ++ tlvBlock tlv.SignatureValue sv) =
        some (tlv.Name, d.name,
          tlvBlock tlv.MetaInfo (metaElemValue d.metaInfo) ++
            (tlvBlock tlv.Content c ++
              (tlvBlock tlv.SignatureInfo d.signatureInfo ++
                tlvBlock tlv.SignatureValue sv))) := by
      rw [hV]
      exact readTLV_encode _ _ _ (by decide) hNl
    have h3 : readTLV (tlvBlock tlv.MetaInfo (metaElemValue d.metaInfo) ++
        (tlvBlock tlv.Content c ++
          (tlvBlock tlv.SignatureInfo d.signatureInfo ++
            tlvBlock tlv.SignatureValue sv))) =
        some (tlv.MetaInfo, (metaElemValue d.metaInfo),
          tlvBlock tlv.Content c ++
            (tlvBlock tlv.SignatureInfo d.signatureInfo ++
              tlvBlock tlv.SignatureValue sv)) :=
      readTLV_encode _ _ _ (by decide) hMl
    have h35 : readTLV (tlvBlock tlv.Content c ++
        (tlvBlock tlv.SignatureInfo d.signatureInfo ++
          tlvBlock tlv.SignatureValue sv)) =
        some (tlv.Content, c,
          tlvBlock tlv.SignatureInfo d.signatureInfo ++
            tlvBlock tlv.SignatureValue sv) :=
      readTLV_encode _ _ _ (by decide) hCl
    have h4 : readTLV (tlvBlock tlv.SignatureInfo d.signatureInfo ++
        tlvBlock tlv.SignatureValue sv) =
        some (tlv.SignatureInfo, d.signatureInfo,
          tlvBlock tlv.SignatureValue sv) :=
      readTLV_encode _ _ _ (by decide) hSl
    refine ⟨[((encodeVarNum tlv.Data ++
        encodeVarNum (unsignedBytes d ++ tlvBlock tlv.SignatureValue sv).length).length,
        (tlvBlock tlv.Name d.name).length),
      ((encodeVarNum tlv.Data ++
        encodeVarNum (unsignedBytes d ++ tlvBlock tlv.SignatureValue sv).length).length +
        (tlvBlock tlv.Name d.name).length,
        (tlvBlock tlv.MetaInfo (metaElemValue d.metaInfo)).length),
      ((encodeVarNum tlv.Data ++
        encodeVarNum (unsignedBytes d ++ tlvBlock tlv.SignatureValue sv).length).length +
        (tlvBlock tlv.Name d.name).length +
        (tlvBlock tlv.MetaInfo (metaElemValue d.metaInfo)).length,
        (tlvBlock tlv.Content c).length),
      ((encodeVarNum tlv.Data ++
        encodeVarNum (unsignedBytes d ++ tlvBlock tlv.SignatureValue sv).length).length +
        (tlvBlock tlv.Name d.name).length +
        (tlvBlock tlv.MetaInfo (metaElemValue d.metaInfo)).length +
        (tlvBlock tlv.Content c).length,
        (tlvBlock tlv.SignatureInfo d.signatureInfo).length)], ?_, ?_⟩
    · unfold Data.extractSignedRanges
      rw [hw]
      simp only [h1, h2, h3, h35, h4, ne1, Option.some_bind]
      have lw : (fullBytes d sv).length =
          (encodeVarNum tlv.Data ++
            encodeVarNum (unsignedBytes d ++ tlvBlock tlv.SignatureValue sv).length).length +
          (unsignedBytes d ++ tlvBlock tlv.SignatureValue sv).length := by
        rw [hwfull]
        simp only [List.length_append]
        try omega
      have lV : (unsignedBytes d ++ tlvBlock tlv.SignatureValue sv).length =
          (tlvBlock tlv.Name d.name).length +
            ((tlvBlock tlv.MetaInfo (metaElemValue d.metaInfo)).length +
              ((tlvBlock tlv.Content c).length +
                ((tlvBlock tlv.SignatureInfo d.signatureInfo).length +
                  (tlvBlock tlv.SignatureValue sv).length))) := by
        rw [hV]
        simp only [List.length_append]
        try omega
      simp [h1, h2, h3, h35, h4, ne1]
      simp only [List.length_append] at lw lV
      omega
    · have r1 : rangeBytes (fullBytes d sv)
          ((encodeVarNum tlv.Data ++
            encodeVarNum (unsignedBytes d ++ tlvBlock tlv.SignatureValue sv).length).length,
           (tlvBlock tlv.Name d.name).length) = tlvBlock tlv.Name d.name := by
        apply rangeBytes_mid _ _ _
          (tlvBlock tlv.MetaInfo (metaElemValue d.metaInfo) ++
            (tlvBlock tlv.Content c ++
              (tlvBlock tlv.SignatureInfo d.signatureInfo ++
                tlvBlock tlv.SignatureValue sv))) _ _ _ rfl rfl
        rw [hwfull, hV]
      have r2 : rangeBytes (fullBytes d sv)
          ((encodeVarNum tlv.Data ++
            encodeVarNum (unsignedBytes d ++ tlvBlock tlv.SignatureValue sv).length).length +
            (tlvBlock tlv.Name d.name).length,
           (tlvBlock tlv.MetaInfo (metaElemValue d.metaInfo)).length) =
          tlvBlock tlv.MetaInfo (metaElemValue d.metaInfo) := by
        apply rangeBytes_mid _ ((encodeVarNum tlv.Data ++
            encodeVarNum (unsignedBytes d ++ tlvBlock tlv.SignatureValue sv).length) ++
            tlvBlock tlv.Name d.name) _
          (tlvBlock tlv.Content c ++
            (tlvBlock tlv.SignatureInfo d.signatureInfo ++
              tlvBlock tlv.SignatureValue sv)) _ _ ?_ (by simp; try omega) rfl
        rw [hwfull, hV]
        simp [List.append_assoc]
      have r3 : rangeBytes (fullBytes d sv)
          ((encodeVarNum tlv.Data ++
            encodeVarNum (unsignedBytes d ++ tlvBlock tlv.SignatureValue sv).length).length +
            (tlvBlock tlv.Name d.name).length +
            (tlvBlock tlv.MetaInfo (metaElemValue d.metaInfo)).length,
           (tlvBlock tlv.Content c).length) = tlvBlock tlv.Content c := by
        apply rangeBytes_mid _ (((encodeVarNum tlv.Data ++
            encodeVarNum (unsignedBytes d ++ tlvBlock tlv.SignatureValue sv).length) ++
            tlvBlock tlv.Name d.name) ++
            tlvBlock tlv.MetaInfo (metaElemValue d.metaInfo)) _
          (tlvBlock tlv.SignatureInfo d.signatureInfo ++
            tlvBlock tlv.SignatureValue sv) _ _ ?_ (by simp; try omega) rfl
        rw [hwfull, hV]
        simp [List.append_assoc]
      have r4 : rangeBytes (fullBytes d sv)
          ((encodeVarNum tlv.Data ++
            encodeVarNum (unsignedBytes d ++ tlvBlock tlv.SignatureValue sv).length).length +
            (tlvBlock tlv.Name d.name).length +
            (tlvBlock tlv.MetaInfo (metaElemValue d.metaInfo)).length +
            (tlvBlock tlv.Content c).length,
           (tlvBlock tlv.SignatureInfo d.signatureInfo).length) =
          tlvBlock tlv.SignatureInfo d.signatureInfo := by
        apply rangeBytes_mid _ ((((encodeVarNum tlv.Data ++
            encodeVarNum (unsignedBytes d ++ tlvBlock tlv.SignatureValue sv).length) ++
            tlvBlock tlv.Name d.name) ++
            tlvBlock tlv.MetaInfo (metaElemValue d.metaInfo)) ++
            tlvBlock tlv.Content c) _
          (tlvBlock tlv.SignatureValue sv) _ _ ?_ (by simp; try omega) rfl
        rw [hwfull, hV]
        simp [List.append_assoc]
      simp only [List.map, r1, r2, r3, r4, List.flatten]
      simp [unsignedBytes, hcc, List.append_assoc]

theorem finishDecode_wire (w nameV : List Nat) (mi : MetaInfo)
    (contentV : Option (List Nat)) (siV rem : List Nat) (d2 : Data)
    (h : finishDecode w nameV mi contentV siV rem = .ok d2) :
    d2.wire = some w := by
  unfold finishDecode at h
  split at h
  · cases h
    rfl
  · split at h
    · simp at h
    · split at h
      · cases h
        rfl
      · simp at h

theorem dataWireDecode_wire (w : List Nat) (d2 : Data)
    (h : dataWireDecode w = .ok d2) : d2.wire = some w := by
  unfold dataWireDecode at h
  repeat' split at h
  all_goals first
    | exact finishDecode_wire _ _ _ _ _ _ _ h
    | simp at h

theorem and_fifteen (n : Nat) : n &&& 15 = n % 16 :=
  Nat.and_pow_two_sub_one_eq_mod n 4

/-! ### Claim theorems -/

/-- C5: a MetaInfo with mobility flag true and hop limit 5 encodes to a
byte sequence containing both a MobilityFlag and a HopLimit sub-element,
and decoding that sequence (feeding each parsed sub-element to the
MetaInfo decoder) restores mobility flag true and hop limit 5; for every
MetaInfo with hop limit 0, the encoding contains no HopLimit
sub-element. -/
theorem claim_C5 (m : MetaInfo) (hm : m.hopLimit = 0) :
    (parseBlocks (MetaInfo.encodeBytes (MetaInfo.mk true 5 42 0 0 none)) =
      some [Block.mk tlv.MobilityFlag [1], Block.mk tlv.HopLimit [5],
        Block.mk tlv.TimeStamp [42]] ∧
      ([Block.mk tlv.MobilityFlag [1], Block.mk tlv.HopLimit [5],
        Block.mk tlv.TimeStamp [42]].map Block.type).contains
          tlv.MobilityFlag = true ∧
      ([Block.mk tlv.MobilityFlag [1], Block.mk tlv.HopLimit [5],
        Block.mk tlv.TimeStamp [42]].map Block.type).contains
          tlv.HopLimit = true ∧
      [Block.mk tlv.MobilityFlag [1], Block.mk tlv.HopLimit [5],
        Block.mk tlv.TimeStamp [42]].foldlM MetaInfo.wireDecode {} =
        some (MetaInfo.mk true 5 42 0 0 none)) ∧
    (parseBlocks (MetaInfo.encodeBytes m)).isSome = true ∧
    Option.all (fun bs => bs.all fun b => b.type != tlv.HopLimit)
      (parseBlocks (MetaInfo.encodeBytes m)) = true := by
  refine ⟨⟨by decide, by decide, by decide, by decide⟩, ?_⟩
  rw [MetaInfo.encodeBytes_eq]
  have l1 : (encodeNNI 1).length < 2 ^ 64 := by
    have := encodeNNI_length_le 1
    omega
  have l3 : (encodeNNI (uint64OfInt m.timeStamp)).length < 2 ^ 64 := by
    have := encodeNNI_length_le (uint64OfInt m.timeStamp)
    omega
  by_cases hf : m.mobilityFlag
  · have hp : metaParts m =
        tlvBlock tlv.MobilityFlag (encodeNNI 1) ++
          tlvBlock tlv.TimeStamp (encodeNNI (uint64OfInt m.timeStamp)) := by
      unfold metaParts
      rw [if_pos hf, if_neg (by simp [hm])]
      simp
    rw [hp, parseBlocks_cons _ _ _ (by decide) l1,
      parseBlocks_single _ _ (by decide) l3]
    simp [tlv.MobilityFlag, tlv.TimeStamp, tlv.HopLimit]
  · have hp : metaParts m =
        tlvBlock tlv.TimeStamp (encodeNNI (uint64OfInt m.timeStamp)) := by
      unfold metaParts
      rw [if_neg hf, if_neg (by simp [hm])]
      simp
    rw [hp, parseBlocks_single _ _ (by decide) l3]
    simp [tlv.TimeStamp, tlv.HopLimit]

/-- Witness for C5 at the concrete MetaInfo with hop limit 0. -/
theorem claim_C5_witness :
    (parseBlocks (MetaInfo.encodeBytes (MetaInfo.mk true 5 42 0 0 none)) =
      some [Block.mk tlv.MobilityFlag [1], Block.mk tlv.HopLimit [5],
        Block.mk tlv.TimeStamp [42]] ∧
      ([Block.mk tlv.MobilityFlag [1], Block.mk tlv.HopLimit [5],
        Block.mk tlv.TimeStamp [42]].map Block.type).contains
          tlv.MobilityFlag = true ∧
      ([Block.mk tlv.MobilityFlag [1], Block.mk tlv.HopLimit [5],
        Block.mk tlv.TimeStamp [42]].map Block.type).contains
          tlv.HopLimit = true ∧
      [Block.mk tlv.MobilityFlag [1], Block.mk tlv.HopLimit [5],
        Block.mk tlv.TimeStamp [42]].foldlM MetaInfo.wireDecode {} =
        some (MetaInfo.mk true 5 42 0 0 none)) ∧
    (parseBlocks (MetaInfo.encodeBytes (MetaInfo.mk false 0 7 0 0 none))).isSome = true ∧
    Option.all (fun bs => bs.all fun b => b.type != tlv.HopLimit)
      (parseBlocks (MetaInfo.encodeBytes (MetaInfo.mk false 0 7 0 0 none))) = true :=
  claim_C5 (MetaInfo.mk false 0 7 0 0 none) rfl

/-- C6: one MetaInfo extension encode appends, in this order, a
MobilityFlag element iff the flag is true, a HopLimit element iff the hop
limit is positive, and a TimeStamp element always, and returns the total
length of the emitted sub-elements. -/
theorem claim_C6 (m : MetaInfo) (e : Encoder) :
    m.wireEncode e =
      (((if m.mobilityFlag then tlvBlock tlv.MobilityFlag (encodeNNI 1) else []) ++
        ((if 0 < m.hopLimit then tlvBlock tlv.HopLimit (encodeNNI m.hopLimit) else []) ++
          tlvBlock tlv.TimeStamp (encodeNNI (uint64OfInt m.timeStamp)))).length,
       Encoder.mk (e.buf ++
        ((if m.mobilityFlag then tlvBlock tlv.MobilityFlag (encodeNNI 1) else []) ++
          ((if 0 < m.hopLimit then tlvBlock tlv.HopLimit (encodeNNI m.hopLimit) else []) ++
            tlvBlock tlv.TimeStamp (encodeNNI (uint64OfInt m.timeStamp)))))) := by
  rw [MetaInfo.wireEncode_eq]
  simp [metaParts, List.append_assoc]

/-- C7 counterexample: a HopLimit block carrying the two-byte
nonnegative-integer 1000 does not set the hop limit to 1000 — the
`uint8_t` assignment truncates it to 232. -/
theorem claim_C7_counterexample :
    readNNI hopBlock1000.value = some 1000 ∧
    MetaInfo.wireDecode {} hopBlock1000 ≠
      some (MetaInfo.mk false 1000 0 0 0 none) ∧
    MetaInfo.wireDecode {} hopBlock1000 = some (MetaInfo.mk false 232 0 0 0 none) := by
  decide

/-- C7 (amended): the MetaInfo decoder processes exactly one supplied
block, dispatching on its type: MobilityFlag sets the flag true; HopLimit
stores the block's nonnegative-integer value truncated to 8 bits (mod
2^8); TimeStamp stores the value reinterpreted as a signed 64-bit
millisecond count; a failed nonnegative-integer read is an error; any
other type changes no field. -/
theorem claim_C7 (m : MetaInfo) (b : Block) (v : Nat) :
    (b.type = tlv.MobilityFlag →
      m.wireDecode b = some { m with mobilityFlag := true }) ∧
    (b.type = tlv.HopLimit → readNNI b.value = some v →
      m.wireDecode b = some { m with hopLimit := v % 2 ^ 8 }) ∧
    (b.type = tlv.HopLimit → readNNI b.value = none →
      m.wireDecode b = none) ∧
    (b.type = tlv.TimeStamp → readNNI b.value = some v →
      m.wireDecode b = some { m with timeStamp := toSigned64 v }) ∧
    (b.type = tlv.TimeStamp → readNNI b.value = none →
      m.wireDecode b = none) ∧
    (b.type ≠ tlv.MobilityFlag → b.type ≠ tlv.HopLimit →
      b.type ≠ tlv.TimeStamp → m.wireDecode b = some m) := by
  obtain ⟨bt, bv⟩ := b
  refine ⟨?_, ?_, ?_, ?_, ?_, ?_⟩
  · intro ht
    subst ht
    exact MetaInfo.wireDecode_mobility m bv
  · intro ht hr
    subst ht
    exact MetaInfo.wireDecode_hopLimit m bv v hr
  · intro ht hr
    subst ht
    simp [MetaInfo.wireDecode, tlv.MobilityFlag, tlv.HopLimit, tlv.TimeStamp, hr]
  · intro ht hr
    subst ht
    exact MetaInfo.wireDecode_timeStamp m bv v hr
  · intro ht hr
    subst ht
    simp [MetaInfo.wireDecode, tlv.MobilityFlag, tlv.HopLimit, tlv.TimeStamp, hr]
  · intro h1 h2 h3
    exact MetaInfo.wireDecode_other m (Block.mk bt bv) h1 h2 h3

/-- Witness for C7 at a concrete HopLimit block with value 5. -/
theorem claim_C7_witness :
    MetaInfo.wireDecode {} (Block.mk tlv.HopLimit [5]) =
      some (MetaInfo.mk false (5 % 2 ^ 8) 0 0 0 none) :=
  (claim_C7 {} (Block.mk tlv.HopLimit [5]) 5).2.1 rfl (by decide)

/-- C8: packet equality compares exactly the five packet fields,
independently of the cached wire bytes and cached full name, and the
inequality operator is its negation. -/
theorem claim_C8 (a b : Data) (w1 w2 f1 f2 : Option (List Nat)) :
    (dataEqOp a b = true ↔
      (a.name = b.name ∧ a.metaInfo = b.metaInfo ∧ a.content = b.content ∧
        a.signatureInfo = b.signatureInfo ∧
        a.signatureValue = b.signatureValue)) ∧
    (dataEqOp { a with wire := w1, fullName := f1 }
        { b with wire := w2, fullName := f2 } = dataEqOp a b) ∧
    (dataNeqOp a b = !(dataEqOp a b)) := by
  refine ⟨?_, rfl, rfl⟩
  obtain ⟨an, am, ac, asi, asv, aw, af⟩ := a
  obtain ⟨bn, bm, bc, bsi, bsv, bw, bf⟩ := b
  obtain ⟨amf, amh, amt, aty, afp, afb⟩ := am
  obtain ⟨bmf, bmh, bmt, bty, bfp, bfb⟩ := bm
  simp [dataEqOp, metaInfoEqOp, MetaInfo.mk.injEq, and_assoc]

/-- C9: composing the hex-digit reader with the hex-digit writer recovers
the low nibble (n mod 16) for every n and either case selector, and the
reader classifies exactly the ASCII hex digits: it lands in [0, 15] iff
the character code is a decimal digit or an upper- or lower-case hex
letter, and is -1 otherwise. -/
theorem claim_C9 (n : Nat) (wantUpperCase : Bool) (c : Nat) :
    fromHexChar (toHexChar n wantUpperCase) = ((n % 16 : Nat) : Int) ∧
    (0 ≤ fromHexChar c ∧ fromHexChar c ≤ 15 ↔
      (48 ≤ c ∧ c ≤ 57) ∨ (65 ≤ c ∧ c ≤ 70) ∨ (97 ≤ c ∧ c ≤ 102)) ∧
    (fromHexChar c = -1 ↔
      ¬((48 ≤ c ∧ c ≤ 57) ∨ (65 ≤ c ∧ c ≤ 70) ∨ (97 ≤ c ∧ c ≤ 102))) := by
  refine ⟨?_, ?_⟩
  · unfold toHexChar
    rw [and_fifteen]
    generalize hg : n % 16 = m
    have hm : m < 16 := by omega
    interval_cases m <;> cases wantUpperCase <;> decide
  · unfold fromHexChar
    split_ifs <;> constructor <;> constructor <;> intro hh <;> omega

/-- C10: resetWire clears exactly the two derived caches; the five packet
fields, including the SignatureValue, are unchanged. -/
theorem claim_C10 (d : Data) :
    d.resetWire.name = d.name ∧ d.resetWire.metaInfo = d.metaInfo ∧
    d.resetWire.content = d.content ∧
    d.resetWire.signatureInfo = d.signatureInfo ∧
    d.resetWire.signatureValue = d.signatureValue ∧
    d.resetWire.wire = none ∧ d.resetWire.fullName = none :=
  ⟨rfl, rfl, rfl, rfl, rfl, rfl, rfl⟩

/-- C1: on a fully signed packet whose wire cache holds its own complete
encoding, the signed-range extraction succeeds and concatenating the
returned byte ranges (viewed inside the cache) yields exactly the output
of the unsigned-portion-only encode. -/
theorem claim_C1 (d : Data) (sv w : List Nat) (hWF : d.WF)
    (hsv : d.signatureValue = some sv) (hw : d.wire = some w)
    (hcons : w = fullBytes d sv) :
    Except.map (fun rs => (rs.map (rangeBytes w)).flatten)
      d.extractSignedRanges = .ok (unsignedBytes d) ∧
    d.wireEncodeImpl true = .ok (unsignedBytes d) := by
  subst hcons
  have hsvl : sv.length < 2 ^ 32 := hWF.2.2.2.2 sv hsv
  obtain ⟨rs, h1, h2⟩ := extractSignedRanges_fullBytes d sv hWF hsvl hw
  refine ⟨?_, rfl⟩
  rw [h1]
  simp [Except.map, h2]

/-- Witness for C1 at the concrete signed example packet. -/
theorem claim_C1_witness :
    Except.map (fun rs =>
        (rs.map (rangeBytes (fullBytes dExWired [170, 170]))).flatten)
      dExWired.extractSignedRanges = .ok (unsignedBytes dExWired) ∧
    dExWired.wireEncodeImpl true = .ok (unsignedBytes dExWired) :=
  claim_C1 dExWired [170, 170] (fullBytes dExWired [170, 170])
    ⟨⟨by decide, by decide, by decide, by decide, by decide, by decide,
        fun fb hfb => by simp [dExWired, dEx] at hfb⟩, by decide, by decide,
      fun c hc => by
        simp only [dExWired, dEx] at hc
        cases hc
        decide,
      fun sv hsv => by
        simp only [dExWired, dEx] at hsv
        cases hsv
        decide⟩
    rfl rfl rfl

/-- C2: for a validly constructed, fully signed packet whose cache is
either empty or consistent with its fields, the no-argument encode
succeeds with the complete encoding, decoding those bytes restores all
five packet fields, sets the wire cache to exactly the input bytes, and
the decoded packet re-encodes (both freshly and via its cache) to the
identical bytes. -/
theorem claim_C2 (d : Data) (sv : List Nat) (hWF : d.WF)
    (hsv : d.signatureValue = some sv)
    (hcache : d.wire = none ∨ d.wire = some (fullBytes d sv)) :
    d.wireEncodeFull =
      .ok (fullBytes d sv, { d with wire := some (fullBytes d sv) }) ∧
    dataWireDecode (fullBytes d sv) =
      .ok { d with signatureValue := some sv, wire := some (fullBytes d sv), fullName := none } ∧
    ({ d with signatureValue := some sv, wire := some (fullBytes d sv), fullName := none } : Data).name = d.name ∧
    ({ d with signatureValue := some sv, wire := some (fullBytes d sv), fullName := none } : Data).metaInfo = d.metaInfo ∧
    ({ d with signatureValue := some sv, wire := some (fullBytes d sv), fullName := none } : Data).content = d.content ∧
    ({ d with signatureValue := some sv, wire := some (fullBytes d sv), fullName := none } : Data).signatureInfo = d.signatureInfo ∧
    ({ d with signatureValue := some sv, wire := some (fullBytes d sv), fullName := none } : Data).signatureValue = d.signatureValue ∧
    ({ d with signatureValue := some sv, wire := some (fullBytes d sv), fullName := none } : Data).wire = some (fullBytes d sv) ∧
    ({ d with signatureValue := some sv, wire := some (fullBytes d sv), fullName := none } : Data).wireEncodeImpl false =
      .ok (fullBytes d sv) ∧
    ({ d with signatureValue := some sv, wire := some (fullBytes d sv), fullName := none } : Data).wireEncodeFull =
      .ok (fullBytes d sv,
        { d with signatureValue := some sv, wire := some (fullBytes d sv), fullName := none }) := by
  have hsvl : sv.length < 2 ^ 32 := hWF.2.2.2.2 sv hsv
  have hdec := dataWireDecode_fullBytes d sv hWF hsvl
  refine ⟨?_, ?_, rfl, rfl, rfl, rfl, hsv.symm, rfl, ?_, ?_⟩
  · rcases hcache with h | h
    · simp [Data.wireEncodeFull, h, Data.wireEncodeImpl, hsv, fullBytes]
    · have hrec : ({ d with wire := some (fullBytes d sv) } : Data) = d := by
        rw [← h]
      simp only [Data.wireEncodeFull, h, hrec]
  · rw [hdec]
  · simp [Data.wireEncodeImpl, fullBytes, unsignedBytes]
  · simp [Data.wireEncodeFull]

/-- Witness for C2 at the concrete signed example packet. -/
theorem claim_C2_witness :
    dEx.wireEncodeFull =
      .ok (fullBytes dEx [170, 170],
        { dEx with wire := some (fullBytes dEx [170, 170]) }) ∧
    dataWireDecode (fullBytes dEx [170, 170]) =
      .ok { dEx with signatureValue := some [170, 170], wire := some (fullBytes dEx [170, 170]), fullName := none } ∧
    ({ dEx with signatureValue := some [170, 170], wire := some (fullBytes dEx [170, 170]), fullName := none } : Data).name = dEx.name ∧
    ({ dEx with signatureValue := some [170, 170], wire := some (fullBytes dEx [170, 170]), fullName := none } : Data).metaInfo = dEx.metaInfo ∧
    ({ dEx with signatureValue := some [170, 170], wire := some (fullBytes dEx [170, 170]), fullName := none } : Data).content = dEx.content ∧
    ({ dEx with signatureValue := some [170, 170], wire := some (fullBytes dEx [170, 170]), fullName := none } : Data).signatureInfo = dEx.signatureInfo ∧
    ({ dEx with signatureValue := some [170, 170], wire := some (fullBytes dEx [170, 170]), fullName := none } : Data).signatureValue = dEx.signatureValue ∧
    ({ dEx with signatureValue := some [170, 170], wire := some (fullBytes dEx [170, 170]), fullName := none } : Data).wire = some (fullBytes dEx [170, 170]) ∧
    ({ dEx with signatureValue := some [170, 170], wire := some (fullBytes dEx [170, 170]), fullName := none } : Data).wireEncodeImpl false =
      .ok (fullBytes dEx [170, 170]) ∧
    ({ dEx with signatureValue := some [170, 170], wire := some (fullBytes dEx [170, 170]), fullName := none } : Data).wireEncodeFull =
      .ok (fullBytes dEx [170, 170],
        { dEx with signatureValue := some [170, 170], wire := some (fullBytes dEx [170, 170]), fullName := none }) :=
  claim_C2 dEx [170, 170]
    ⟨⟨by decide, by decide, by decide, by decide, by decide, by decide,
        fun fb hfb => by simp [dEx] at hfb⟩, by decide, by decide,
      fun c hc => by
        simp only [dEx] at hc
        cases hc
        decide,
      fun sv hsv => by
        simp only [dEx] at hsv
        cases hsv
        decide⟩
    rfl (Or.inl rfl)

theorem wireEncodeFull_ok_wire (d : Data) (p : List Nat × Data)
    (h : d.wireEncodeFull = .ok p) :
    p.2.hasWire = true ∧ (p.2.fullName.isSome → p.2.wire.isSome) := by
  cases hdw : d.wire with
  | some w0 =>
    simp only [Data.wireEncodeFull, hdw] at h
    cases h
    exact ⟨by simp [Data.hasWire, hdw], fun _ => by simp [hdw]⟩
  | none =>
    simp only [Data.wireEncodeFull, hdw] at h
    split at h
    · simp at h
    · cases h
      exact ⟨by simp [Data.hasWire], fun _ => by simp⟩

theorem getFullName_ok_inv (d : Data) (fnp : List Nat × Data)
    (hInv : d.fullName.isSome → d.wire.isSome)
    (h : d.getFullName = .ok fnp) :
    fnp.2.fullName.isSome → fnp.2.wire.isSome := by
  cases hfn : d.fullName with
  | some f =>
    simp only [Data.getFullName, hfn] at h
    cases h
    intro _
    exact hInv (by simp [hfn])
  | none =>
    simp only [Data.getFullName, hfn] at h
    split at h
    · simp at h
    · next w heq =>
      cases h
      intro _
      simp [heq]

/-- C3: every field mutator — the direct setters and the delegating
MetaInfo field setters setContentType, setFreshnessPeriod and
setFinalBlock — leaves the packet with no wire cache and a getFullName
call that fails with the no-wire-encoding error; a successful encode or
decode repopulates the wire cache; and across the modelled operations the
full-name cache is present only when the wire cache is. -/
theorem claim_C3 (d : Data) (nm : List Nat) (mi : MetaInfo) (b : Block)
    (si sv : List Nat) (ct : Nat) (fp : Int) (fb : Option (List Nat))
    (w : List Nat) (p1 : List Nat × Data) (d2 : Data)
    (fnp : List Nat × Data)
    (hInv : d.fullName.isSome → d.wire.isSome)
    (hE : d.wireEncodeFull = .ok p1)
    (hD : dataWireDecode w = .ok d2)
    (hF : d.getFullName = .ok fnp) :
    ((d.setName nm).hasWire = false ∧
      (d.setName nm).getFullName = .error .noWireError) ∧
    ((d.setMetaInfo mi).hasWire = false ∧
      (d.setMetaInfo mi).getFullName = .error .noWireError) ∧
    ((d.setContent b).hasWire = false ∧
      (d.setContent b).getFullName = .error .noWireError) ∧
    (d.unsetContent.hasWire = false ∧
      d.unsetContent.getFullName = .error .noWireError) ∧
    ((d.setSignatureInfo si).hasWire = false ∧
      (d.setSignatureInfo si).getFullName = .error .noWireError) ∧
    ((d.setSignatureValue sv).hasWire = false ∧
      (d.setSignatureValue sv).getFullName = .error .noWireError) ∧
    ((d.setContentType ct).hasWire = false ∧
      (d.setContentType ct).getFullName = .error .noWireError) ∧
    ((d.setFreshnessPeriod fp).hasWire = false ∧
      (d.setFreshnessPeriod fp).getFullName = .error .noWireError) ∧
    ((d.setFinalBlock fb).hasWire = false ∧
      (d.setFinalBlock fb).getFullName = .error .noWireError) ∧
    p1.2.hasWire = true ∧ d2.hasWire = true ∧
    ((d.setName nm).fullName.isSome → (d.setName nm).wire.isSome) ∧
    ((d.setContentType ct).fullName.isSome → (d.setContentType ct).wire.isSome) ∧
    (p1.2.fullName.isSome → p1.2.wire.isSome) ∧
    (d2.fullName.isSome → d2.wire.isSome) ∧
    (fnp.2.fullName.isSome → fnp.2.wire.isSome) := by
  have hw2 := dataWireDecode_wire w d2 hD
  have hEw := wireEncodeFull_ok_wire d p1 hE
  refine ⟨⟨rfl, rfl⟩, ⟨rfl, rfl⟩, ⟨rfl, rfl⟩, ⟨rfl, rfl⟩, ⟨rfl, rfl⟩,
    ⟨rfl, rfl⟩, ⟨rfl, rfl⟩, ⟨rfl, rfl⟩, ⟨rfl, rfl⟩, hEw.1,
    by simp [Data.hasWire, hw2], ?_, ?_, hEw.2, ?_, ?_⟩
  · intro hcontr
    simp [Data.setName, Data.resetWire] at hcontr
  · intro hcontr
    simp [Data.setContentType, Data.resetWire] at hcontr
  · intro _
    simp [hw2]
  · exact getFullName_ok_inv d fnp hInv hF

set_option maxRecDepth 10000 in
/-- Witness for C3 at the concrete wired example packet. -/
theorem claim_C3_witness :
    (dExWired.setName [0]).hasWire = false ∧
    (dExWired.setName [0]).getFullName = .error .noWireError ∧
    (dExWired.setSignatureValue []).hasWire = false ∧
    (dExWired.setContentType 1).hasWire = false ∧
    (dExWired.setContentType 1).getFullName = .error .noWireError ∧
    (dExWired.setFreshnessPeriod 7).hasWire = false ∧
    (dExWired.setFinalBlock (some [9])).hasWire = false ∧
    dExWired.hasWire = true :=
  have h := claim_C3 dExWired [0] {} (Block.mk 0 []) [] [] 1 7 (some [9])
    (fullBytes dEx [170, 170]) (fullBytes dEx [170, 170], dExWired) dExWired
    (dEx.name ++ tlvBlock tlv.ImplicitSha256DigestComponent
        (digestBytes (fullBytes dEx [170, 170])),
      { dExWired with fullName := some (dEx.name ++
          tlvBlock tlv.ImplicitSha256DigestComponent
            (digestBytes (fullBytes dEx [170, 170]))) })
    (by intro hx; simp [dExWired, dEx] at hx)
    rfl
    (by rfl)
    rfl
  ⟨h.1.1, h.1.2, h.2.2.2.2.2.1.1, h.2.2.2.2.2.2.1.1, h.2.2.2.2.2.2.1.2,
    h.2.2.2.2.2.2.2.1.1, h.2.2.2.2.2.2.2.2.1.1, h.2.2.2.2.2.2.2.2.2.2.1⟩

set_option maxRecDepth 10000 in
/-- C4 counterexample: decoding a complete but unsigned Data element
leaves the signature value absent yet populates the wire cache, after
which the no-argument encode returns the cached bytes successfully
instead of failing with an encoding error. -/
theorem claim_C4_counterexample :
    dataWireDecode unsignedWireEx = .ok dUDecoded ∧
    dUDecoded.signatureValue = none ∧
    dUDecoded.wireEncodeFull = .ok (unsignedWireEx, dUDecoded) := by
  refine ⟨by rfl, rfl, rfl⟩

/-- C4 (amended): for every packet whose signatureValue is absent, the
encoder-variant full encode fails with an encoding error, the no-argument
encode fails with an encoding error whenever no wire cache is populated
(with a populated cache it returns the cached bytes instead), and the
unsigned-portion-only encode succeeds without a signature. -/
theorem claim_C4 (d : Data) (hsv : d.signatureValue = none) :
    d.wireEncodeImpl false = .error .encodingError ∧
    (d.wire = none → d.wireEncodeFull = .error .encodingError) ∧
    d.wireEncodeImpl true = .ok (unsignedBytes d) := by
  refine ⟨?_, ?_, rfl⟩
  · simp [Data.wireEncodeImpl, hsv]
  · intro hw
    simp [Data.wireEncodeFull, hw, Data.wireEncodeImpl, hsv]

/-- Witness for C4 at the concrete unsigned example packet. -/
theorem claim_C4_witness :
    dU.wireEncodeImpl false = .error .encodingError ∧
    dU.wireEncodeFull = .error .encodingError ∧
    dU.wireEncodeImpl true = .ok (unsignedBytes dU) :=
  ⟨(claim_C4 dU rfl).1, (claim_C4 dU rfl).2.1 rfl, (claim_C4 dU rfl).2.2⟩
